import Mathlib

/-!
Ours timetable compiler: the line parser and colour resolution.

A shallow embedding of `ours-cli.go`.  Go strings are modelled as `List Char`
(one `Char` per rune), the input file as the list of its lines as
`bufio.ScanLines` yields them, the `activities` map as an association list
keyed by activity ID, and the pointer from a `Slot` to its `Activity` as the
key of that activity in the map.  `log.Fatalf` ends the run, so the parser
returns an `Outcome` instead of exiting.
-/

namespace Ours

/-! ## Constants -/

/-- The constant `SyntaxVersion`. -/
def SyntaxVersion : List Char := "2.0".toList

/-- The header line that carries the supported version. -/
def headerLine : List Char := "/* ours@2.0 */".toList

/-- The line `/* ours@X.Y */` for the two characters X and Y. -/
def versionHeader (x y : Char) : List Char :=
  "/* ours@".toList ++ [x, '.', y] ++ " */".toList

/-! ## Data model -/

/-- The structure representing an activity colour. -/
structure Color where
  Name : List Char
  Background : List Char
  Foreground : List Char
deriving DecidableEq, Repr

/-- The structure representing a time slot.  The field `Activity` is the Go
pointer to the owning activity, kept here as that activity's key in the map. -/
structure Slot where
  Activity : List Char
  ID : List Char
  Icon : List Char
  Location : List Char
  Day : Nat
  Start : List Char
  End : List Char
deriving DecidableEq, Repr

/-- The structure representing an activity of the timetable. -/
structure Activity where
  ID : List Char
  Name : List Char
  Color : Color
  Slots : List Slot
deriving DecidableEq, Repr

/-- The table `BuiltInColors`: name to colour. -/
def BuiltInColors : List (List Char × Color) :=
  [ ("green".toList, ⟨"green".toList, "#2ecc71".toList, "#fefefe".toList⟩),
    ("turquoise".toList, ⟨"turquoise".toList, "#1abc9c".toList, "#fefefe".toList⟩),
    ("navy".toList, ⟨"navy".toList, "#34495e".toList, "#fefefe".toList⟩),
    ("blue".toList, ⟨"blue".toList, "#3498db".toList, "#fefefe".toList⟩),
    ("purple".toList, ⟨"purple".toList, "#9b59b6".toList, "#fefefe".toList⟩),
    ("grey".toList, ⟨"grey".toList, "#bdc3c7".toList, "#202020".toList⟩),
    ("red".toList, ⟨"red".toList, "#e74c3c".toList, "#fefefe".toList⟩),
    ("orange".toList, ⟨"orange".toList, "#f39c12".toList, "#fefefe".toList⟩),
    ("yellow".toList, ⟨"yellow".toList, "#f1c40f".toList, "#303030".toList⟩) ]

/-- The table `BuiltInDays`: day token to day index. -/
def BuiltInDays : List (List Char × Nat) :=
  [ ("MON".toList, 0), ("TUE".toList, 1), ("WED".toList, 2), ("THU".toList, 3),
    ("FRI".toList, 4),
    ("01".toList, 0), ("02".toList, 1), ("03".toList, 2), ("04".toList, 3),
    ("05".toList, 4) ]

/-! ## Character classes of the patterns -/

/-- The class `[A-Z]`. -/
def isUpper (c : Char) : Bool := decide (65 ≤ c.toNat ∧ c.toNat ≤ 90)

/-- The class `[a-z]`. -/
def isLower (c : Char) : Bool := decide (97 ≤ c.toNat ∧ c.toNat ≤ 122)

/-- The class `[0-9]`, which is also `\d`. -/
def isDigit (c : Char) : Bool := decide (48 ≤ c.toNat ∧ c.toNat ≤ 57)

/-- The class `[A-Z0-9]` of activity IDs. -/
def isIDChar (c : Char) : Bool := isUpper c || isDigit c

/-- The class `[a-fA-F0-9]` of hexadecimal digits. -/
def isHex (c : Char) : Bool :=
  decide (97 ≤ c.toNat ∧ c.toNat ≤ 102) || decide (65 ≤ c.toNat ∧ c.toNat ≤ 70) || isDigit c

/-- The class `[-a-zA-Z0-9]` of icon characters. -/
def isIconChar (c : Char) : Bool := c == '-' || isLower c || isUpper c || isDigit c

/-- The class `\s`, which in Go is `[\t\n\f\r ]`. -/
def isSpace (c : Char) : Bool :=
  c == '\t' || c == '\n' || c == Char.ofNat 12 || c == '\r' || c == ' '

/-- The class `[a-zA-Z0-9\s.-]` of location characters. -/
def isLocationChar (c : Char) : Bool :=
  isLower c || isUpper c || isDigit c || isSpace c || c == '.' || c == '-'

/-- The class `.`: every character but the line feed. -/
def isDot (c : Char) : Bool := c != '\n'

/-! ## The patterns

Every pattern is anchored with `^` and `$` (which, without the `m` flag, match
only at the two ends of the text), so `FindAllStringSubmatch` yields at most
one match.  The matchers below return the capture groups of that match, or
`none` where Go returns `nil`. -/

/-- Cut a text at the first occurrence of `sep`. -/
def splitFirst (sep : Char) : List Char → Option (List Char × List Char)
  | [] => none
  | c :: cs =>
    if c = sep then some ([], cs)
    else (splitFirst sep cs).map (fun p => (c :: p.1, p.2))

/-- Go `strings.Split(s, sep)` for a separator of one character: the pieces
between the occurrences of `sep`, one more than there are occurrences. -/
def Split : List Char → Char → List (List Char)
  | [], _ => [[]]
  | c :: cs, sep =>
    if c = sep then [] :: Split cs sep
    else
      match Split cs sep with
      | [] => [[c]]
      | piece :: pieces => (c :: piece) :: pieces

/-- The pattern `RuleSyntax`, `^/\* ours@(\d\.\d)\ \*/$`: the captured
version. -/
def matchSyntax (text : List Char) : Option (List Char) :=
  match text with
  | [a0, a1, a2, a3, a4, a5, a6, a7, d1, dot, d2, b0, b1, b2] =>
    if [a0, a1, a2, a3, a4, a5, a6, a7] = "/* ours@".toList ∧ isDigit d1 = true ∧ dot = '.'
        ∧ isDigit d2 = true ∧ [b0, b1, b2] = " */".toList then
      some [d1, dot, d2]
    else none
  | _ => none

/-- The second group of `RuleActivity`,
`[A-Z]+|#[a-fA-F0-9]{6}#[a-fA-F0-9]{6}`. -/
def isColorToken (s : List Char) : Bool :=
  (!s.isEmpty && s.all isUpper) ||
  (match s with
   | [h, b1, b2, b3, b4, b5, b6, k, f1, f2, f3, f4, f5, f6] =>
     h == '#' && [b1, b2, b3, b4, b5, b6].all isHex && k == '#'
       && [f1, f2, f3, f4, f5, f6].all isHex
   | _ => false)

/-- The pattern `RuleActivity`,
`^([A-Z0-9]+)@([A-Z]+|#[a-fA-F0-9]{6}#[a-fA-F0-9]{6})@(.+)$`: the groups ID,
colour and name.  No character of the first two groups can be `@`, so they end
at the first and at the second `@` of the line. -/
def matchActivity (content : List Char) : Option (List Char × List Char × List Char) :=
  match splitFirst '@' content with
  | none => none
  | some (id, rest) =>
    match splitFirst '@' rest with
    | none => none
    | some (colorString, name) =>
      if (!id.isEmpty && id.all isIDChar) && isColorToken colorString
          && (!name.isEmpty && name.all isDot) then
        some (id, colorString, name)
      else none

/-- The day alternatives `MON|TUE|WED|THU|FRI|01|02|03|04|05`. -/
def dayTokens : List (List Char) :=
  [ "MON".toList, "TUE".toList, "WED".toList, "THU".toList, "FRI".toList,
    "01".toList, "02".toList, "03".toList, "04".toList, "05".toList ]

/-- The minutes `[0-5][0-9]`. -/
def isMinute (m1 m2 : Char) : Bool := decide (48 ≤ m1.toNat ∧ m1.toNat ≤ 53) && isDigit m2

/-- The hours of START, `0[089]|1[0-9]|2[0-2]`. -/
def isStartHour (h1 h2 : Char) : Bool :=
  (h1 == '0' && (h2 == '0' || h2 == '8' || h2 == '9')) ||
  (h1 == '1' && isDigit h2) ||
  (h1 == '2' && decide (48 ≤ h2.toNat ∧ h2.toNat ≤ 50))

/-- The hours of END, `0[089]|1[0-9]|2[0-3]`. -/
def isEndHour (h1 h2 : Char) : Bool :=
  (h1 == '0' && (h2 == '0' || h2 == '8' || h2 == '9')) ||
  (h1 == '1' && isDigit h2) ||
  (h1 == '2' && decide (48 ≤ h2.toNat ∧ h2.toNat ≤ 51))

/-- The fifth group of `RuleSlot`, `(?:0[089]|1[0-9]|2[0-2])[0-5][0-9]`. -/
def isStartTime : List Char → Bool
  | [h1, h2, m1, m2] => isStartHour h1 h2 && isMinute m1 m2
  | _ => false

/-- The sixth group of `RuleSlot`, `(?:0[089]|1[0-9]|2[0-3])[0-5][0-9]`. -/
def isEndTime : List Char → Bool
  | [h1, h2, m1, m2] => isEndHour h1 h2 && isMinute m1 m2
  | _ => false

/-- The six capture groups of a slot line. -/
structure SlotGroups where
  id : List Char
  icon : List Char
  location : List Char
  day : List Char
  start : List Char
  stop : List Char
deriving DecidableEq, Repr

/-- The pattern `RuleSlot`,
`^([A-Z0-9]+):([-a-zA-Z0-9]*):([a-zA-Z0-9\s.-]+):(MON|TUE|WED|THU|FRI|01|02|03|04|05):((?:0[089]|1[0-9]|2[0-2])[0-5][0-9]):((?:0[089]|1[0-9]|2[0-3])[0-5][0-9])$`.
No group can hold a `:`, so the groups are the six pieces of the line between
its colons. -/
def matchSlot (content : List Char) : Option SlotGroups :=
  match Split content ':' with
  | [id, icon, location, day, start, stop] =>
    if (!id.isEmpty && id.all isIDChar) && icon.all isIconChar
        && (!location.isEmpty && location.all isLocationChar)
        && decide (day ∈ dayTokens) && isStartTime start && isEndTime stop then
      some ⟨id, icon, location, day, start, stop⟩
    else none
  | _ => none

/-- The pattern `RuleComment`, `^#.+$`. -/
def matchComment (content : List Char) : Bool :=
  match content with
  | c :: rest => c == '#' && !rest.isEmpty && rest.all isDot
  | [] => false

/-! ## Colour resolution -/

/-- What a call of `convertColor` does: return a colour, return the error
`color not valid`, or stop the program with an index out of range. -/
inductive ColorResult where
  | color (c : Color)
  | notValid
  | indexOutOfRange
deriving DecidableEq, Repr

/-- The function `convertColor`.  `toLower` stands for `strings.ToLower` and
is left open: what is proved holds for every lower-casing function.  The loop
over the map `BuiltInColors` is a search through the table; the table has no
two entries of the same name, so the order of the search does not matter. -/
def convertColor (toLower : List Char → List Char) (colorString : List Char) : ColorResult :=
  let hex := Split colorString '#'
  if hex.length > 1 then
    match hex.get? 1, hex.get? 2 with
    | some h1, some h2 =>
      .color { Name := "custom hex color".toList, Background := '#' :: h1, Foreground := '#' :: h2 }
    | _, _ => .indexOutOfRange
  else
    match BuiltInColors.find? (fun entry => entry.1 == toLower colorString) with
    | some entry => .color entry.2
    | none => .notValid

/-- Go `strings.ToLower` on a text of ASCII characters. -/
def asciiToLower (s : List Char) : List Char :=
  s.map (fun c => if isUpper c then Char.ofNat (c.toNat + 32) else c)

/-! ## The parser -/

/-- The slot record that `parseInput` builds from the groups of a slot line
and the index of its day. -/
def slotOfGroups (g : SlotGroups) (day : Nat) : Slot :=
  { Activity := g.id, ID := g.id, Icon := g.icon, Location := g.location,
    Day := day, Start := g.start, End := g.stop }


/-- The fatal diagnostics of the parser, each with the values its message
prints besides the line number. -/
inductive Diagnostic where
  | UnsupportedSyntax
  | VersionMismatch (versionFound : List Char)
  | DuplicateActivity (id : List Char)
  | UnknownColor (colorString : List Char)
  | UnknownActivity (id : List Char)
  | InvalidDay
  | InvalidSyntax
deriving DecidableEq, Repr

/-- The map `activities`, from activity ID to activity. -/
abbrev Activities := List (List Char × Activity)

/-- How a run of the parser ends: `log.Fatalf` at a line with a diagnostic, a
run-time panic, or the call of `processInput` on the activities.  A fatal
outcome also records the map `activities` as it is when the run stops. -/
inductive Outcome where
  | fatal (line : Nat) (d : Diagnostic) (activities : Activities)
  | panic (line : Nat)
  | processed (activities : Activities)
deriving DecidableEq, Repr

/-- The statement `activity.Slots = append(activity.Slots, slot)` on the
activity registered under `id`. -/
def appendSlot (activities : Activities) (id : List Char) (slot : Slot) : Activities :=
  activities.map (fun entry =>
    if entry.1 = id then (entry.1, { entry.2 with Slots := entry.2.Slots ++ [slot] }) else entry)

/-- What one iteration of the scanning loop does: go on to the next line with
the activities as they are now, end the run with `log.Fatalf`, or panic. -/
inductive Step where
  | next (activities : Activities)
  | fatal (d : Diagnostic)
  | panic
deriving DecidableEq, Repr

/-- The body of the loop of `parseInput`, for the text of line number `line`
(already incremented). -/
def scanLine (toLower : List Char → List Char) (activities : Activities) (line : Nat)
    (text : List Char) : Step :=
  if line = 1 then
    match matchSyntax text with
    | none => .fatal .UnsupportedSyntax
    | some versionFound =>
      if versionFound ≠ SyntaxVersion then .fatal (.VersionMismatch versionFound)
      else .next activities
  else
    match matchActivity text with
    | some (id, colorString, name) =>
      match activities.lookup id with
      | some _ => .fatal (.DuplicateActivity id)
      | none =>
        match convertColor toLower colorString with
        | .notValid => .fatal (.UnknownColor colorString)
        | .indexOutOfRange => .panic
        | .color color =>
          .next (activities ++ [(id, { ID := id, Name := name, Color := color, Slots := [] })])
    | none =>
      match matchSlot text with
      | some g =>
        match activities.lookup g.id with
        | none => .fatal (.UnknownActivity g.id)
        | some _ =>
          match BuiltInDays.lookup g.day with
          | none => .fatal .InvalidDay
          | some day => .next (appendSlot activities g.id (slotOfGroups g day))
      | none =>
        if matchComment text = true then .next activities
        else if text = [] then .next activities
        else .fatal .InvalidSyntax

/-- The loop `for scanner.Scan()` of `parseInput`, on the lines still to read;
`line` is the line counter before the next line is read. -/
def scan (toLower : List Char → List Char) : Activities → Nat → List (List Char) → Outcome
  | activities, _, [] => .processed activities
  | activities, line, text :: rest =>
    match scanLine toLower activities (line + 1) text with
    | .next activities1 => scan toLower activities1 (line + 1) rest
    | .fatal d => .fatal (line + 1) d activities
    | .panic => .panic (line + 1)

/-- The function `parseInput` on the lines of the input file. -/
def parseInput (toLower : List Char → List Char) (lines : List (List Char)) : Outcome :=
  scan toLower [] 0 lines

/-! ## The document seen from outside the parser -/

/-- The activity IDs that the lines matching `RuleActivity` declare, in the
order of the lines. -/
def declaredIDs (lines : List (List Char)) : List (List Char) :=
  lines.filterMap (fun text => (matchActivity text).map (fun m => m.1))

/-- The slot records of the lines that match `RuleSlot` with the ID `id`, in
the order of the lines. -/
def slotRecords (id : List Char) (lines : List (List Char)) : List Slot :=
  lines.filterMap (fun text =>
    match matchSlot text with
    | some g => if g.id = id then (BuiltInDays.lookup g.day).map (slotOfGroups g) else none
    | none => none)

/-- The value of a text of decimal digits. -/
def digitsValue (s : List Char) : Nat :=
  s.foldl (fun n c => 10 * n + (c.toNat - 48)) 0

/-- Go `strconv.Atoi`, with `int` of 64 bits: the number and whether the
returned error is `nil`.  A text that is not an optional sign followed by
decimal digits gives 0, a number out of range gives the nearest bound. -/
def Atoi (s : List Char) : Int × Bool :=
  let negative := s.head? = some '-'
  let body := if s.head? = some '-' ∨ s.head? = some '+' then s.tail else s
  if body = [] ∨ body.all isDigit = false then (0, false)
  else if negative then
    if digitsValue body > 2 ^ 63 then (-(2 ^ 63 : Int), false)
    else (-(digitsValue body : Int), true)
  else
    if digitsValue body ≥ 2 ^ 63 then ((2 ^ 63 : Int) - 1, false)
    else ((digitsValue body : Int), true)

/-- The hour of a time `HHMM` of four characters, read as `StartDelay` and
`Duration` read it: `strconv.Atoi` of the first two characters. -/
def hourOf (time : List Char) : Int := (Atoi (time.take 2)).1

/-- The minute of a time `HHMM` of four characters: `strconv.Atoi` of the
characters 2 and 3. -/
def minuteOf (time : List Char) : Int := (Atoi ((time.drop 2).take 2)).1

/-! ## The time window of the slot pattern -/

/-- The hour digits that `0[089]|1[0-9]|2[0-2]` accepts for START. -/
def startHourDigits : List (List Char) :=
  [ "00".toList, "08".toList, "09".toList,
    "10".toList, "11".toList, "12".toList, "13".toList, "14".toList, "15".toList,
    "16".toList, "17".toList, "18".toList, "19".toList,
    "20".toList, "21".toList, "22".toList ]

/-- The hour digits that `0[089]|1[0-9]|2[0-3]` accepts for END. -/
def endHourDigits : List (List Char) := startHourDigits ++ ["23".toList]

/-- A START time as the slot pattern accepts it: four decimal digits, the hour
digits among `startHourDigits`, that is hour 0 or an hour from 8 to 22, and
the minute from 0 to 59. -/
def InStartWindow (time : List Char) : Prop :=
  time.length = 4 ∧ time.all isDigit = true ∧ time.take 2 ∈ startHourDigits
    ∧ (hourOf time = 0 ∨ (8 ≤ hourOf time ∧ hourOf time ≤ 22))
    ∧ 0 ≤ minuteOf time ∧ minuteOf time ≤ 59

/-- An END time as the slot pattern accepts it: four decimal digits, the hour
digits among `endHourDigits`, that is hour 0 or an hour from 8 to 23, and the
minute from 0 to 59. -/
def InEndWindow (time : List Char) : Prop :=
  time.length = 4 ∧ time.all isDigit = true ∧ time.take 2 ∈ endHourDigits
    ∧ (hourOf time = 0 ∨ (8 ≤ hourOf time ∧ hourOf time ≤ 23))
    ∧ 0 ≤ minuteOf time ∧ minuteOf time ≤ 59

/-! ## The day tokens -/

/-- The three-letter weekday abbreviations, Monday first. -/
def weekdayNames : List (List Char) :=
  [ "MON".toList, "TUE".toList, "WED".toList, "THU".toList, "FRI".toList ]

/-- The two-digit code `0k` of the day number `k`. -/
def dayCode (k : Nat) : List Char := ['0', Char.ofNat (48 + k)]

/-! ## The palette -/

/-- The nine names of the built-in colours. -/
def colorNames : List (List Char) :=
  [ "green".toList, "turquoise".toList, "navy".toList, "blue".toList, "purple".toList,
    "grey".toList, "red".toList, "orange".toList, "yellow".toList ]

/-- The palette entry of the colour green. -/
def greenColor : Color := ⟨"green".toList, "#2ecc71".toList, "#fefefe".toList⟩

/-! ## What the map must hold after a list of lines -/

/-- The map agrees with the lines read so far: its keys are the declared IDs,
every activity sits under its own ID with the slot records of the lines that
carry this ID, in their order, and the ID of every slot line is a key. -/
def AgreesWith (lines : List (List Char)) (activities : Activities) : Prop :=
  activities.map Prod.fst = declaredIDs lines
    ∧ (∀ entry ∈ activities,
        entry.2.ID = entry.1 ∧ entry.2.Slots = slotRecords entry.1 lines)
    ∧ (∀ text ∈ lines, ∀ g, matchSlot text = some g → g.id ∈ activities.map Prod.fst)

/-! ## The derived values of a slot -/

/-- The number of bytes of a character in UTF-8, the encoding of Go strings. -/
def utf8Len (c : Char) : Nat :=
  if c.toNat < 128 then 1 else if c.toNat < 2048 then 2 else if c.toNat < 65536 then 3 else 4

/-- Cut a text at the byte offset `n`: the characters before the offset and
those from it on.  The result is `none` when the offset lies beyond the end of
the text or inside a character of several bytes. -/
def splitAtByte : List Char → Nat → Option (List Char × List Char)
  | s, 0 => some ([], s)
  | [], _ + 1 => none
  | c :: cs, n + 1 =>
    if utf8Len c ≤ n + 1 then
      (splitAtByte cs (n + 1 - utf8Len c)).map (fun p => (c :: p.1, p.2))
    else none

/-- The Go slice `s[lo:hi]`, whose bounds count bytes.  The result is `none`
when Go panics because the bounds are out of range, and also when a bound
falls inside a character, where Go yields bytes that are no text of whole
characters; `some t` says that Go returns exactly the text `t`. -/
def slice (s : List Char) (lo hi : Nat) : Option (List Char) :=
  if lo ≤ hi then
    match splitAtByte s lo with
    | some (_, rest) => (splitAtByte rest (hi - lo)).map (fun p => p.1)
    | none => none
  else none

/-- The method `StartPrintable`: `fmt.Sprintf("%s:%s", s.Start[0:2], s.Start[2:4])`. -/
def StartPrintable (s : Slot) : Option (List Char) :=
  match slice s.Start 0 2, slice s.Start 2 4 with
  | some hh, some mm => some (hh ++ ':' :: mm)
  | _, _ => none

/-- The method `EndPrintable`: `fmt.Sprintf("%s:%s", s.End[0:2], s.End[2:4])`. -/
def EndPrintable (s : Slot) : Option (List Char) :=
  match slice s.End 0 2, slice s.End 2 4 with
  | some hh, some mm => some (hh ++ ':' :: mm)
  | _, _ => none

/-- The method `StartDelay`: the minutes from 08:00 to the start.  The two
numbers come from `strconv.Atoi` with the error dropped; they have at most two
digits, so the arithmetic stays far inside the range of `int`. -/
def StartDelay (s : Slot) : Option Int :=
  match slice s.Start 0 2, slice s.Start 2 4 with
  | some hh, some mm => some (((Atoi hh).1 * 60 + (Atoi mm).1) - (8 * 60 + 0))
  | _, _ => none

/-- The method `Duration`: the minutes from the start to the end. -/
def Duration (s : Slot) : Option Int :=
  match slice s.Start 0 2, slice s.Start 2 4, slice s.End 0 2, slice s.End 2 4 with
  | some sh, some sm, some eh, some em =>
    some (((Atoi eh).1 * 60 + (Atoi em).1) - ((Atoi sh).1 * 60 + (Atoi sm).1))
  | _, _, _, _ => none

/-- A slot with the given start and end, for the statements that only look at
the times. -/
def slotAt (start stop : List Char) : Slot :=
  { Activity := "M1".toList, ID := "M1".toList, Icon := [], Location := "R 1".toList,
    Day := 0, Start := start, End := stop }

/-! ## The inline style of a slot -/

/-- The integer nearest to `x`, the even one of the two when `x` lies halfway. -/
def roundHalfEven (x : ℚ) : ℤ :=
  if x - ⌊x⌋ < 1 / 2 then ⌊x⌋
  else if 1 / 2 < x - ⌊x⌋ then ⌊x⌋ + 1
  else if ⌊x⌋ % 2 = 0 then ⌊x⌋ else ⌊x⌋ + 1

/-- The `float64` nearest to the number `y`, as IEEE 754 arithmetic rounds the
exact result of a conversion or of a division: a significand of 53 bits,
halfway cases to the even significand.  The result is given by its exact
value.  The limits of the exponent are left out, so this is the rounding of
Go for the magnitudes from 2^-1022 up to 2^1024 and for 0; the numbers rounded
here are 0 or of a size between 1/10 and 2^63. -/
def roundFloat64 (y : ℚ) : ℚ :=
  if y = 0 then 0
  else if y < 0 then
    -((roundHalfEven (|y| / 2 ^ (Int.log 2 |y| - 52)) : ℚ) * 2 ^ (Int.log 2 |y| - 52))
  else (roundHalfEven (|y| / 2 ^ (Int.log 2 |y| - 52)) : ℚ) * 2 ^ (Int.log 2 |y| - 52)

/-- The expression `float64(n) / 10` of `Styles`: the conversion of the `int`
and the division, both rounded to `float64`. -/
def tenthOf (n : Int) : ℚ := roundFloat64 (roundFloat64 (n : ℚ) / 10)

/-- The verb `%.1f` of `fmt.Sprintf` on a `float64` of exact value `x` that is
not the negative zero: the sign, then the decimal numeral of `x` rounded to one
digit after the point, halfway cases to the even digit. -/
def formatF1 (x : ℚ) : List Char :=
  (if x < 0 then ['-'] else [])
    ++ Nat.toDigits 10 ((roundHalfEven (|x| * 10)).toNat / 10) ++ ['.']
    ++ Nat.toDigits 10 ((roundHalfEven (|x| * 10)).toNat % 10)

/-- The decimal numeral of `n/10` with exactly one digit after the point, with
a leading `-` when `n` is negative. -/
def tenths (n : Int) : List Char :=
  (if n < 0 then ['-'] else [])
    ++ Nat.toDigits 10 (n.natAbs / 10) ++ ['.'] ++ Nat.toDigits 10 (n.natAbs % 10)

/-- The method `Styles`, for a slot of the map `activities`.  The result is
`none` when Go panics: `s.Activity` points to no activity, or a slice of
`Duration` or `StartDelay` is out of range. -/
def Styles (activities : Activities) (s : Slot) : Option (List Char) :=
  match activities.lookup s.Activity, Duration s, StartDelay s with
  | some activity, some duration, some delay =>
    some ("height: ".toList ++ formatF1 (tenthOf duration) ++ "vh; top: ".toList
      ++ formatF1 (tenthOf delay) ++ "vh; background-color: ".toList
      ++ activity.Color.Background ++ "; color: ".toList ++ activity.Color.Foreground
      ++ ";".toList)
  | _, _, _ => none

/-! ## The day buckets of `processInput` -/

/-- How the loop over the activities and their slots ends in `processInput`:
with the five buffers `days` filled, with `log.Fatalf` because a slot could not
be rendered, or with a panic because `days[slot.Day]` is out of range. -/
inductive Grouping where
  | days (buffers : List (List Char))
  | fatal
  | panic
deriving DecidableEq, Repr

/-- The statement `days[day].Write(text)`, for a `day` within the buffers. -/
def writeDay : List (List Char) → Nat → List Char → List (List Char)
  | [], _, _ => []
  | buffer :: buffers, 0, text => (buffer ++ text) :: buffers
  | buffer :: buffers, day + 1, text => buffer :: writeDay buffers day text

/-- The loop over the slots of one activity.  `render` stands for the slot
template: `tmplSlot.FRender(&buf, &slot)` gives the text of a slot, or an
error, here `none`. -/
def renderSlots (render : Slot → Option (List Char)) :
    List (List Char) → List Slot → Grouping
  | days, [] => .days days
  | days, slot :: rest =>
    match render slot with
    | none => .fatal
    | some text =>
      if slot.Day < days.length then renderSlots render (writeDay days slot.Day text) rest
      else .panic

/-- The loop over the activities, in the order in which `range activities`
enumerates the map. -/
def renderActivities (render : Slot → Option (List Char)) :
    List (List Char) → List (List Char × Activity) → Grouping
  | days, [] => .days days
  | days, entry :: rest =>
    match renderSlots render days entry.2.Slots with
    | .days days1 => renderActivities render days1 rest
    | .fatal => .fatal
    | .panic => .panic

/-- The five day buffers of `processInput`: `var days [5]bytes.Buffer` filled
by the loop over the activities, enumerated in the order `enumeration`. -/
def dayBuckets (render : Slot → Option (List Char))
    (enumeration : List (List Char × Activity)) : Grouping :=
  renderActivities render (List.replicate 5 []) enumeration

/-- The rendered slots of one day, one text for each slot, in the order in
which the loop meets the slots. -/
def dayPieces (render : Slot → Option (List Char)) (day : Nat)
    (enumeration : List (List Char × Activity)) : List (List Char) :=
  enumeration.flatMap (fun entry =>
    (entry.2.Slots.filter (fun slot => slot.Day = day)).filterMap render)

/-! ## Sample lines -/

/-- The activity line `M1@GREEN@Math`. -/
def sampleActivityLine : List Char := "M1@GREEN@Math".toList

/-- The activity that `sampleActivityLine` registers, before any slot. -/
def sampleActivity : Activity :=
  { ID := "M1".toList, Name := "Math".toList,
    Color := ⟨"green".toList, "#2ecc71".toList, "#fefefe".toList⟩, Slots := [] }

/-- The groups of the slot line `M0::R 1:MON:0900:1030`. -/
def sampleOrphanGroups : SlotGroups :=
  ⟨"M0".toList, [], "R 1".toList, "MON".toList, "0900".toList, "1030".toList⟩

/-- A document of eight lines: two activities, a comment, a blank line, and
three slot lines, the slots of `M1` on both sides of the slot of `M2`. -/
def sampleDocument : List (List Char) :=
  [ headerLine,
    sampleActivityLine,
    "M1::R 1:MON:0900:1030".toList,
    "M2@#1a2b3c#ffffff@Art".toList,
    "# studio".toList,
    "M2:brush:Lab:TUE:1000:1200".toList,
    [],
    "M1:book:R 2:03:1400:1500".toList ]

/-- The mapping that `sampleDocument` gives. -/
def sampleMapping : Activities :=
  [ ("M1".toList,
      { sampleActivity with
        Slots :=
          [ ⟨"M1".toList, "M1".toList, [], "R 1".toList, 0, "0900".toList, "1030".toList⟩,
            ⟨"M1".toList, "M1".toList, "book".toList, "R 2".toList, 2, "1400".toList,
              "1500".toList⟩ ] }),
    ("M2".toList,
      { ID := "M2".toList, Name := "Art".toList,
        Color := ⟨"custom hex color".toList, "#1a2b3c".toList, "#ffffff".toList⟩,
        Slots :=
          [ ⟨"M2".toList, "M2".toList, "brush".toList, "Lab".toList, 1, "1000".toList,
              "1200".toList⟩ ] }) ]

/-- The mapping of a document with two activities that both have a slot on
Monday: `M1@GREEN@Math`, `M2@RED@Art`, `M1::R 1:MON:0900:1030`,
`M2::R 2:MON:1100:1200`. -/
def mondayMapping : Activities :=
  [ ("M1".toList,
      { sampleActivity with
        Slots := [⟨"M1".toList, "M1".toList, [], "R 1".toList, 0, "0900".toList,
          "1030".toList⟩] }),
    ("M2".toList,
      { ID := "M2".toList, Name := "Art".toList,
        Color := ⟨"red".toList, "#e74c3c".toList, "#fefefe".toList⟩,
        Slots := [⟨"M2".toList, "M2".toList, [], "R 2".toList, 0, "1100".toList,
          "1200".toList⟩] }) ]

/-- A slot template that prints the location of the slot between brackets. -/
def sampleRender (slot : Slot) : Option (List Char) :=
  some ('[' :: slot.Location ++ [']'])

/-! ## Facts about the patterns -/

theorem splitFirst_mem (sep : Char) :
    ∀ (s : List Char) (p : List Char × List Char), splitFirst sep s = some p → sep ∈ s
  | [], p, h => by simp [splitFirst] at h
  | c :: cs, p, h => by
    by_cases hc : c = sep
    · simp [hc]
    · simp only [splitFirst, hc, if_false, Option.map_eq_some'] at h
      obtain ⟨q, hq, _⟩ := h
      exact List.mem_cons_of_mem _ (splitFirst_mem sep cs q hq)

theorem splitFirst_eq_some (sep : Char) :
    ∀ (s a b : List Char), splitFirst sep s = some (a, b) → s = a ++ sep :: b ∧ sep ∉ a
  | [], a, b, h => by simp [splitFirst] at h
  | c :: cs, a, b, h => by
    by_cases hc : c = sep
    · simp only [splitFirst, hc, if_true, Option.some.injEq, Prod.mk.injEq] at h
      obtain ⟨rfl, rfl⟩ := h
      simp [hc]
    · simp only [splitFirst, hc, if_false, Option.map_eq_some'] at h
      obtain ⟨⟨a1, b1⟩, hq, heq⟩ := h
      simp only [Prod.mk.injEq] at heq
      obtain ⟨rfl, rfl⟩ := heq
      obtain ⟨h1, h2⟩ := splitFirst_eq_some sep cs a1 b1 hq
      refine ⟨by simp [h1], ?_⟩
      simp only [List.mem_cons, not_or]
      exact ⟨fun e => hc e.symm, h2⟩

theorem splitFirst_append (sep : Char) :
    ∀ (a b : List Char), sep ∉ a → splitFirst sep (a ++ sep :: b) = some (a, b)
  | [], b, _ => by simp [splitFirst]
  | c :: cs, b, h => by
    simp only [List.mem_cons, not_or] at h
    have hc : ¬ c = sep := fun e => h.1 e.symm
    simp [splitFirst, hc, splitFirst_append sep cs b h.2]

theorem Split_ne_nil : ∀ (s : List Char) (sep : Char), Split s sep ≠ []
  | [], _ => by simp [Split]
  | c :: cs, sep => by
    unfold Split
    split
    · simp
    · split <;> simp

theorem Split_of_not_mem (sep : Char) (s : List Char) (h : sep ∉ s) : Split s sep = [s] := by
  induction s with
  | nil => rfl
  | cons c cs ih =>
    simp only [List.mem_cons, not_or] at h
    have hc : ¬ c = sep := fun e => h.1 e.symm
    simp [Split, hc, ih h.2]

theorem Split_append_sep (sep : Char) (a b : List Char) (h : sep ∉ a) :
    Split (a ++ sep :: b) sep = a :: Split b sep := by
  induction a with
  | nil => simp [Split]
  | cons c cs ih =>
    simp only [List.mem_cons, not_or] at h
    have hc : ¬ c = sep := fun e => h.1 e.symm
    simp [Split, hc, ih h.2]

/-- Every character of a text is the separator or lies in a piece of the split. -/
theorem mem_Split_cover (sep : Char) :
    ∀ (s : List Char) (c : Char), c ∈ s → c = sep ∨ ∃ p ∈ Split s sep, c ∈ p
  | [], c, h => by simp at h
  | d :: ds, c, h => by
    rcases List.mem_cons.mp h with rfl | h
    · by_cases hc : c = sep
      · exact Or.inl hc
      · right
        unfold Split
        simp only [hc, if_false]
        split
        · exact ⟨[c], by simp, by simp⟩
        · exact ⟨_, List.mem_cons_self _ _, List.mem_cons_self _ _⟩
    · rcases mem_Split_cover sep ds c h with h1 | ⟨p, hp, hcp⟩
      · exact Or.inl h1
      · right
        unfold Split
        by_cases hd : d = sep
        · simp only [hd, if_true]
          exact ⟨p, List.mem_cons_of_mem _ hp, hcp⟩
        · simp only [hd, if_false]
          split
          · rename_i heq
            rw [heq] at hp
            simp at hp
          · rename_i piece pieces heq
            rw [heq] at hp
            rcases List.mem_cons.mp hp with rfl | hp
            · exact ⟨d :: p, List.mem_cons_self _ _, List.mem_cons_of_mem _ hcp⟩
            · exact ⟨p, List.mem_cons_of_mem _ hp, hcp⟩

/-- What a match of `RuleSlot` says about the line and its six groups. -/
theorem matchSlot_eq_some {content : List Char} {g : SlotGroups} (h : matchSlot content = some g) :
    Split content ':' = [g.id, g.icon, g.location, g.day, g.start, g.stop]
      ∧ g.id ≠ [] ∧ g.id.all isIDChar = true ∧ g.icon.all isIconChar = true
      ∧ g.location ≠ [] ∧ g.location.all isLocationChar = true
      ∧ g.day ∈ dayTokens ∧ isStartTime g.start = true ∧ isEndTime g.stop = true := by
  unfold matchSlot at h
  split at h
  · rename_i id icon location day start stop hs
    split at h
    · rename_i hc
      simp only [Option.some.injEq] at h
      subst h
      simp only [Bool.and_eq_true, Bool.not_eq_true', List.isEmpty_eq_false, decide_eq_true_eq] at hc
      obtain ⟨⟨⟨⟨⟨⟨h1, h2⟩, h3⟩, ⟨h4, h5⟩⟩, h6⟩, h7⟩, h8⟩ := hc
      exact ⟨hs, h1, h2, h3, h4, h5, h6, h7, h8⟩
    · simp at h
  · simp at h

theorem isStartHour_digits {h1 h2 : Char} (h : isStartHour h1 h2 = true) :
    isDigit h1 = true ∧ isDigit h2 = true := by
  simp only [isStartHour, Bool.or_eq_true, Bool.and_eq_true, beq_iff_eq, decide_eq_true_eq] at h
  rcases h with (⟨rfl, (rfl | rfl) | rfl⟩ | ⟨rfl, h⟩) | ⟨rfl, h⟩
  · decide
  · decide
  · decide
  · exact ⟨by decide, h⟩
  · refine ⟨by decide, ?_⟩
    simp only [isDigit, decide_eq_true_eq]
    omega

theorem isEndHour_digits {h1 h2 : Char} (h : isEndHour h1 h2 = true) :
    isDigit h1 = true ∧ isDigit h2 = true := by
  simp only [isEndHour, Bool.or_eq_true, Bool.and_eq_true, beq_iff_eq, decide_eq_true_eq] at h
  rcases h with (⟨rfl, (rfl | rfl) | rfl⟩ | ⟨rfl, h⟩) | ⟨rfl, h⟩
  · decide
  · decide
  · decide
  · exact ⟨by decide, h⟩
  · refine ⟨by decide, ?_⟩
    simp only [isDigit, decide_eq_true_eq]
    omega

theorem isMinute_digits {m1 m2 : Char} (h : isMinute m1 m2 = true) :
    isDigit m1 = true ∧ isDigit m2 = true := by
  simp only [isMinute, Bool.and_eq_true, decide_eq_true_eq] at h
  refine ⟨?_, h.2⟩
  simp only [isDigit, decide_eq_true_eq]
  omega

/-- A START group is made of four decimal digits. -/
theorem isStartTime_digits {s : List Char} (h : isStartTime s = true) :
    s.length = 4 ∧ s.all isDigit = true := by
  match s, h with
  | [h1, h2, m1, m2], h =>
    simp only [isStartTime, Bool.and_eq_true] at h
    have a := isStartHour_digits h.1
    have b := isMinute_digits h.2
    simp [a.1, a.2, b.1, b.2]

/-- An END group is made of four decimal digits. -/
theorem isEndTime_digits {s : List Char} (h : isEndTime s = true) :
    s.length = 4 ∧ s.all isDigit = true := by
  match s, h with
  | [h1, h2, m1, m2], h =>
    simp only [isEndTime, Bool.and_eq_true] at h
    have a := isEndHour_digits h.1
    have b := isMinute_digits h.2
    simp [a.1, a.2, b.1, b.2]

theorem isDigit_ne_at {c : Char} (h : isDigit c = true) : c ≠ '@' := by
  rintro rfl; revert h; decide

theorem isIDChar_ne_at {c : Char} (h : isIDChar c = true) : c ≠ '@' := by
  rintro rfl; revert h; decide

theorem isIconChar_ne_at {c : Char} (h : isIconChar c = true) : c ≠ '@' := by
  rintro rfl; revert h; decide

theorem isLocationChar_ne_at {c : Char} (h : isLocationChar c = true) : c ≠ '@' := by
  rintro rfl; revert h; decide

theorem dayTokens_no_at {d : List Char} (h : d ∈ dayTokens) : '@' ∉ d := by
  simp only [dayTokens, List.mem_cons, List.mem_singleton, List.not_mem_nil, or_false] at h
  rcases h with rfl | rfl | rfl | rfl | rfl | rfl | rfl | rfl | rfl | rfl <;> decide

/-- A line that matches `RuleSlot` holds no `@`. -/
theorem matchSlot_no_at {content : List Char} {g : SlotGroups} (h : matchSlot content = some g) :
    '@' ∉ content := by
  obtain ⟨hs, _, h2, h3, _, h5, h6, h7, h8⟩ := matchSlot_eq_some h
  intro hmem
  rcases mem_Split_cover ':' content '@' hmem with hc | ⟨p, hp, hcp⟩
  · revert hc; decide
  · rw [hs] at hp
    simp only [List.mem_cons, List.mem_singleton, List.not_mem_nil, or_false] at hp
    rcases hp with rfl | rfl | rfl | rfl | rfl | rfl
    · exact isIDChar_ne_at (List.all_eq_true.mp h2 _ hcp) rfl
    · exact isIconChar_ne_at (List.all_eq_true.mp h3 _ hcp) rfl
    · exact isLocationChar_ne_at (List.all_eq_true.mp h5 _ hcp) rfl
    · exact dayTokens_no_at h6 hcp
    · exact isDigit_ne_at (List.all_eq_true.mp (isStartTime_digits h7).2 _ hcp) rfl
    · exact isDigit_ne_at (List.all_eq_true.mp (isEndTime_digits h8).2 _ hcp) rfl

/-- A line that matches `RuleActivity` holds an `@`. -/
theorem matchActivity_has_at {content : List Char} {m : List Char × List Char × List Char}
    (h : matchActivity content = some m) : '@' ∈ content := by
  unfold matchActivity at h
  split at h
  · simp at h
  · rename_i id rest hs
    exact splitFirst_mem '@' content _ hs

/-- A line that matches `RuleSlot` does not match `RuleActivity`, which the
parser tries first. -/
theorem matchActivity_eq_none_of_matchSlot {content : List Char} {g : SlotGroups}
    (h : matchSlot content = some g) : matchActivity content = none := by
  cases hm : matchActivity content with
  | none => rfl
  | some m => exact absurd (matchActivity_has_at hm) (matchSlot_no_at h)

/-! ## The matchers and the languages of the patterns -/

theorem Split_cons_inv (sep : Char) :
    ∀ (s p : List Char) (ps : List (List Char)), Split s sep = p :: ps →
      sep ∉ p ∧ ((ps = [] ∧ s = p) ∨ ∃ rest, s = p ++ sep :: rest ∧ Split rest sep = ps) := by
  intro s
  induction s with
  | nil =>
    intro p ps h
    simp only [Split, List.cons.injEq] at h
    obtain ⟨rfl, rfl⟩ := h
    exact ⟨by simp, Or.inl ⟨rfl, rfl⟩⟩
  | cons c cs ih =>
    intro p ps h
    by_cases hc : c = sep
    · simp only [Split, hc, if_true, List.cons.injEq] at h
      obtain ⟨rfl, rfl⟩ := h
      exact ⟨by simp, Or.inr ⟨cs, by simp [hc], rfl⟩⟩
    · simp only [Split, hc, if_false] at h
      cases hsp : Split cs sep with
      | nil => exact absurd hsp (Split_ne_nil cs sep)
      | cons q qs =>
        rw [hsp] at h
        simp only [List.cons.injEq] at h
        obtain ⟨rfl, rfl⟩ := h
        obtain ⟨hq, hrest⟩ := ih q qs hsp
        refine ⟨?_, ?_⟩
        · simp only [List.mem_cons, not_or]
          exact ⟨fun e => hc e.symm, hq⟩
        · rcases hrest with ⟨rfl, rfl⟩ | ⟨rest, rfl, hr⟩
          · exact Or.inl ⟨rfl, rfl⟩
          · exact Or.inr ⟨rest, by simp, hr⟩

theorem isIDChar_ne_colon {c : Char} (h : isIDChar c = true) : c ≠ ':' := by
  rintro rfl; revert h; decide

theorem isIconChar_ne_colon {c : Char} (h : isIconChar c = true) : c ≠ ':' := by
  rintro rfl; revert h; decide

theorem isLocationChar_ne_colon {c : Char} (h : isLocationChar c = true) : c ≠ ':' := by
  rintro rfl; revert h; decide

theorem isDigit_ne_colon {c : Char} (h : isDigit c = true) : c ≠ ':' := by
  rintro rfl; revert h; decide

theorem dayTokens_no_colon {d : List Char} (h : d ∈ dayTokens) : ':' ∉ d := by
  simp only [dayTokens, List.mem_cons, List.mem_singleton, List.not_mem_nil, or_false] at h
  rcases h with rfl | rfl | rfl | rfl | rfl | rfl | rfl | rfl | rfl | rfl <;> decide

theorem not_mem_of_all {P : Char → Bool} {c : Char} {s : List Char}
    (hP : ∀ d, P d = true → d ≠ c) (h : s.all P = true) : c ∉ s :=
  fun hmem => hP c (List.all_eq_true.mp h c hmem) rfl

/-- The language of `RuleSlot`: a line matches with the groups `g` exactly when
it is the six groups joined by colons and each group lies in the language of
its part of the pattern. -/
theorem matchSlot_iff (content : List Char) (g : SlotGroups) :
    matchSlot content = some g ↔
      content = g.id ++ ':' :: (g.icon ++ ':' :: (g.location ++ ':' :: (g.day ++ ':' ::
          (g.start ++ ':' :: g.stop))))
        ∧ g.id ≠ [] ∧ g.id.all isIDChar = true ∧ g.icon.all isIconChar = true
        ∧ g.location ≠ [] ∧ g.location.all isLocationChar = true
        ∧ g.day ∈ dayTokens ∧ isStartTime g.start = true ∧ isEndTime g.stop = true := by
  constructor
  · intro h
    obtain ⟨hs, h1, h2, h3, h4, h5, h6, h7, h8⟩ := matchSlot_eq_some h
    refine ⟨?_, h1, h2, h3, h4, h5, h6, h7, h8⟩
    obtain ⟨_, ⟨hn, _⟩ | ⟨r1, e1, hs1⟩⟩ := Split_cons_inv ':' _ _ _ hs
    · simp at hn
    obtain ⟨_, ⟨hn, _⟩ | ⟨r2, e2, hs2⟩⟩ := Split_cons_inv ':' _ _ _ hs1
    · simp at hn
    obtain ⟨_, ⟨hn, _⟩ | ⟨r3, e3, hs3⟩⟩ := Split_cons_inv ':' _ _ _ hs2
    · simp at hn
    obtain ⟨_, ⟨hn, _⟩ | ⟨r4, e4, hs4⟩⟩ := Split_cons_inv ':' _ _ _ hs3
    · simp at hn
    obtain ⟨_, ⟨hn, _⟩ | ⟨r5, e5, hs5⟩⟩ := Split_cons_inv ':' _ _ _ hs4
    · simp at hn
    obtain ⟨_, ⟨_, e6⟩ | ⟨r6, _, hs6⟩⟩ := Split_cons_inv ':' _ _ _ hs5
    · rw [e1, e2, e3, e4, e5, e6]
    · exact absurd hs6 (Split_ne_nil r6 ':')
  · rintro ⟨hc, h1, h2, h3, h4, h5, h6, h7, h8⟩
    have n1 : ':' ∉ g.id := not_mem_of_all (fun _ => isIDChar_ne_colon) h2
    have n2 : ':' ∉ g.icon := not_mem_of_all (fun _ => isIconChar_ne_colon) h3
    have n3 : ':' ∉ g.location := not_mem_of_all (fun _ => isLocationChar_ne_colon) h5
    have n4 : ':' ∉ g.day := dayTokens_no_colon h6
    have n5 : ':' ∉ g.start := not_mem_of_all (fun _ => isDigit_ne_colon) (isStartTime_digits h7).2
    have n6 : ':' ∉ g.stop := not_mem_of_all (fun _ => isDigit_ne_colon) (isEndTime_digits h8).2
    have hs : Split content ':' = [g.id, g.icon, g.location, g.day, g.start, g.stop] := by
      rw [hc, Split_append_sep ':' _ _ n1, Split_append_sep ':' _ _ n2,
        Split_append_sep ':' _ _ n3, Split_append_sep ':' _ _ n4, Split_append_sep ':' _ _ n5,
        Split_of_not_mem ':' _ n6]
    have e1 : g.id.isEmpty = false := by simpa using h1
    have e4 : g.location.isEmpty = false := by simpa using h4
    simp only [matchSlot, hs, e1, e4, h2, h3, h5, h6, h7, h8, Bool.not_false, Bool.and_self,
      decide_True, if_true]

theorem isUpper_ne_at {c : Char} (h : isUpper c = true) : c ≠ '@' := by
  rintro rfl; revert h; decide

theorem isHex_ne_at {c : Char} (h : isHex c = true) : c ≠ '@' := by
  rintro rfl; revert h; decide

/-- A colour token of `RuleActivity` holds no `@`. -/
theorem isColorToken_no_at {s : List Char} (h : isColorToken s = true) : '@' ∉ s := by
  unfold isColorToken at h
  rcases Bool.or_eq_true _ _ |>.mp h with h1 | h2
  · simp only [Bool.and_eq_true] at h1
    exact not_mem_of_all (fun _ => isUpper_ne_at) h1.2
  · split at h2
    · simp only [Bool.and_eq_true, beq_iff_eq] at h2
      obtain ⟨⟨⟨rfl, hb⟩, rfl⟩, hf⟩ := h2
      intro hmem
      have hb2 := not_mem_of_all (fun _ => isHex_ne_at) hb
      have hf2 := not_mem_of_all (fun _ => isHex_ne_at) hf
      simp only [List.mem_cons, List.not_mem_nil, or_false] at hmem hb2 hf2
      rcases hmem with h | h | h | h | h | h | h | h | h | h | h | h | h | h
      · revert h; decide
      · exact hb2 (Or.inl h)
      · exact hb2 (Or.inr (Or.inl h))
      · exact hb2 (Or.inr (Or.inr (Or.inl h)))
      · exact hb2 (Or.inr (Or.inr (Or.inr (Or.inl h))))
      · exact hb2 (Or.inr (Or.inr (Or.inr (Or.inr (Or.inl h)))))
      · exact hb2 (Or.inr (Or.inr (Or.inr (Or.inr (Or.inr h)))))
      · revert h; decide
      · exact hf2 (Or.inl h)
      · exact hf2 (Or.inr (Or.inl h))
      · exact hf2 (Or.inr (Or.inr (Or.inl h)))
      · exact hf2 (Or.inr (Or.inr (Or.inr (Or.inl h))))
      · exact hf2 (Or.inr (Or.inr (Or.inr (Or.inr (Or.inl h)))))
      · exact hf2 (Or.inr (Or.inr (Or.inr (Or.inr (Or.inr h)))))
    · simp at h2

/-- The language of `RuleActivity`: a line matches with the groups ID, colour
and name exactly when it is the three groups joined by `@` and each group lies
in the language of its part of the pattern. -/
theorem matchActivity_iff (content id colorString name : List Char) :
    matchActivity content = some (id, colorString, name) ↔
      content = id ++ '@' :: (colorString ++ '@' :: name)
        ∧ id ≠ [] ∧ id.all isIDChar = true ∧ isColorToken colorString = true
        ∧ name ≠ [] ∧ name.all isDot = true := by
  constructor
  · intro h
    unfold matchActivity at h
    split at h
    · simp at h
    · rename_i id1 rest hs1
      split at h
      · simp at h
      · rename_i cs1 name1 hs2
        split at h
        · rename_i hc
          simp only [Option.some.injEq, Prod.mk.injEq] at h
          obtain ⟨rfl, rfl, rfl⟩ := h
          simp only [Bool.and_eq_true, Bool.not_eq_true', List.isEmpty_eq_false] at hc
          obtain ⟨⟨⟨h1, h2⟩, h3⟩, h4, h5⟩ := hc
          obtain ⟨e1, _⟩ := splitFirst_eq_some '@' _ _ _ hs1
          obtain ⟨e2, _⟩ := splitFirst_eq_some '@' _ _ _ hs2
          exact ⟨by rw [e1, e2], h1, h2, h3, h4, h5⟩
        · simp at h
  · rintro ⟨hc, h1, h2, h3, h4, h5⟩
    have n1 : '@' ∉ id := not_mem_of_all (fun _ => isIDChar_ne_at) h2
    have n2 : '@' ∉ colorString := isColorToken_no_at h3
    have e1 : id.isEmpty = false := by simpa using h1
    have e4 : name.isEmpty = false := by simpa using h4
    simp only [matchActivity, hc, splitFirst_append '@' _ _ n1, splitFirst_append '@' _ _ n2,
      e1, e4, h2, h3, h5, Bool.not_false, Bool.and_self, if_true]

/-! ## Facts about the scanning loop -/

theorem scan_append (toLower : List Char → List Char) (pre rest : List (List Char)) :
    ∀ (activities : Activities) (line : Nat),
      scan toLower activities line (pre ++ rest) =
        match scan toLower activities line pre with
        | .processed activities1 => scan toLower activities1 (line + pre.length) rest
        | o => o := by
  induction pre with
  | nil => intro activities line; simp [scan]
  | cons text pre ih =>
    intro activities line
    rw [List.cons_append]
    simp only [scan, List.length_cons]
    cases hstep : scanLine toLower activities (line + 1) text with
    | next activities1 =>
      simp only
      rw [ih activities1 (line + 1)]
      have : line + 1 + pre.length = line + (pre.length + 1) := by omega
      rw [this]
    | fatal d => simp
    | panic => simp

theorem lookup_eq_none_iff (id : List Char) (m : Activities) :
    m.lookup id = none ↔ id ∉ m.map Prod.fst := by
  induction m with
  | nil => simp
  | cons e m ih =>
    obtain ⟨k, v⟩ := e
    rw [List.lookup_cons, List.map_cons, List.mem_cons, not_or]
    by_cases hk : id = k
    · subst hk
      simp only [beq_self_eq_true, not_true_eq_false, false_and, iff_false]
      exact fun h => nomatch h
    · have hb : (id == k) = false := beq_eq_false_iff_ne.mpr hk
      simp only [hb, hk, not_false_eq_true, true_and]
      exact ih

theorem appendSlot_keys (activities : Activities) (id : List Char) (slot : Slot) :
    (appendSlot activities id slot).map Prod.fst = activities.map Prod.fst := by
  simp only [appendSlot, List.map_map]
  apply List.map_congr_left
  intro entry _
  simp only [Function.comp]
  split <;> rfl

/-- The header line is accepted as line 1 and registers nothing. -/
theorem scanLine_header (toLower : List Char → List Char) (activities : Activities) :
    scanLine toLower activities 1 headerLine = .next activities := by
  simp only [scanLine, if_true]
  rfl

/-- The keys of the map after one more accepted line, from line 2 on. -/
theorem scanLine_keys (toLower : List Char → List Char) (activities activities1 : Activities)
    (line : Nat) (text : List Char) (hl : line ≠ 1)
    (h : scanLine toLower activities line text = .next activities1) :
    activities1.map Prod.fst = activities.map Prod.fst ++ declaredIDs [text] := by
  unfold scanLine at h
  simp only [hl, if_false] at h
  cases hact : matchActivity text with
  | some m =>
    obtain ⟨id, colorString, name⟩ := m
    rw [hact] at h
    simp only at h
    have hd : declaredIDs [text] = [id] := by
      simp [declaredIDs, List.filterMap_cons, hact]
    rw [hd]
    split at h
    · simp at h
    · split at h
      · simp at h
      · simp at h
      · simp only [Step.next.injEq] at h
        subst h
        simp
  | none =>
    rw [hact] at h
    simp only at h
    have hd : declaredIDs [text] = [] := by
      simp [declaredIDs, List.filterMap_cons, hact]
    rw [hd, List.append_nil]
    split at h
    · split at h
      · simp at h
      · split at h
        · simp at h
        · simp only [Step.next.injEq] at h
          subst h
          rw [appendSlot_keys]
    · split at h
      · simp only [Step.next.injEq] at h
        subst h; rfl
      · split at h
        · simp only [Step.next.injEq] at h
          subst h; rfl
        · simp at h

theorem declaredIDs_cons (text : List Char) (lines : List (List Char)) :
    declaredIDs (text :: lines) = declaredIDs [text] ++ declaredIDs lines := by
  simp only [declaredIDs]
  rw [← List.filterMap_append]
  rfl

/-- After the lines 2 and following have been scanned without error, the keys
of the map are the IDs they declare. -/
theorem scan_keys (toLower : List Char → List Char) (lines : List (List Char)) :
    ∀ (activities activities1 : Activities) (line : Nat),
      1 ≤ line → scan toLower activities line lines = .processed activities1 →
      activities1.map Prod.fst = activities.map Prod.fst ++ declaredIDs lines := by
  induction lines with
  | nil =>
    intro activities activities1 line _ h
    simp only [scan, Outcome.processed.injEq] at h
    simp [h, declaredIDs]
  | cons text lines ih =>
    intro activities activities1 line hl h
    simp only [scan] at h
    cases hstep : scanLine toLower activities (line + 1) text with
    | fatal d => rw [hstep] at h; simp at h
    | panic => rw [hstep] at h; simp at h
    | next activities2 =>
      rw [hstep] at h
      simp only at h
      rw [ih activities2 activities1 (line + 1) (by omega) h,
        scanLine_keys toLower activities activities2 (line + 1) text (by omega) hstep,
        declaredIDs_cons text lines, List.append_assoc]

/-- Scanning a document whose line 1 is the header goes on with line 2 and an
empty map. -/
theorem parseInput_header (toLower : List Char → List Char) (body : List (List Char)) :
    parseInput toLower (headerLine :: body) = scan toLower [] 1 body := by
  simp only [parseInput, scan, Nat.zero_add, scanLine_header]

/-- What a match of `RuleSyntax` says about the line: it is `/* ours@X.Y */`
for two decimal digits X and Y, and the captured version is `X.Y`. -/
theorem matchSyntax_eq_some {text version : List Char} (h : matchSyntax text = some version) :
    ∃ x y : Char, isDigit x = true ∧ isDigit y = true ∧ version = [x, '.', y]
      ∧ text = versionHeader x y := by
  unfold matchSyntax at h
  split at h
  · rename_i a0 a1 a2 a3 a4 a5 a6 a7 d1 dot d2 b0 b1 b2
    split at h
    · rename_i hc
      obtain ⟨h1, h2, h3, h4, h5⟩ := hc
      simp only [Option.some.injEq] at h
      subst h
      subst h3
      refine ⟨d1, d2, h2, h4, rfl, ?_⟩
      have e1 : [a0, a1, a2, a3, a4, a5, a6, a7] ++ [d1, '.', d2] ++ [b0, b1, b2]
          = versionHeader d1 d2 := by rw [h1, h5]; rfl
      exact e1
    · simp at h
  · simp at h

/-- A line of the form `/* ours@X.Y */` matches `RuleSyntax` and captures `X.Y`. -/
theorem matchSyntax_of_form (x y : Char) (hx : isDigit x = true) (hy : isDigit y = true) :
    matchSyntax (versionHeader x y) = some [x, '.', y] := by
  unfold versionHeader
  have e : "/* ours@".toList ++ [x, '.', y] ++ " */".toList
      = ['/', '*', ' ', 'o', 'u', 'r', 's', '@', x, '.', y, ' ', '*', '/'] := rfl
  rw [e]
  simp only [matchSyntax, hx, hy, and_true, true_and]
  rfl

/-- The only line that matches `RuleSyntax` with the supported version. -/
theorem matchSyntax_supported {text : List Char} (h : matchSyntax text = some SyntaxVersion) :
    text = headerLine := by
  obtain ⟨x, y, _, _, hv, ht⟩ := matchSyntax_eq_some h
  rw [ht]
  simp only [SyntaxVersion] at hv
  have hx : x = '2' := by
    have := congrArg (fun l => l.head?) hv
    simpa using this.symm
  have hy : y = '0' := by
    have := congrArg (fun l => l.get? 2) hv
    simpa using this.symm
  subst hx; subst hy
  rfl

/-- A document of at least one line that reaches `processInput` starts with
the header of the supported version. -/
theorem parseInput_processed_header (toLower : List Char → List Char) (first : List Char)
    (rest : List (List Char)) (activities : Activities)
    (h : parseInput toLower (first :: rest) = .processed activities) : first = headerLine := by
  simp only [parseInput, scan, Nat.zero_add, scanLine, if_true] at h
  cases hm : matchSyntax first with
  | none => rw [hm] at h; simp at h
  | some v =>
    rw [hm] at h
    simp only at h
    by_cases hv : v = SyntaxVersion
    · subst hv; exact matchSyntax_supported hm
    · simp [hv] at h

/-! ## Facts about the times -/

theorem isDigit_cases {c : Char} (h : isDigit c = true) :
    c ∈ ['0', '1', '2', '3', '4', '5', '6', '7', '8', '9'] := by
  simp only [isDigit, decide_eq_true_eq] at h
  obtain ⟨h1, h2⟩ := h
  have hc : c = Char.ofNat c.toNat := (Char.ofNat_toNat c).symm
  generalize c.toNat = n at h1 h2 hc
  subst hc
  interval_cases n <;> decide

/-- The number that `strconv.Atoi` reads from two decimal digits. -/
theorem Atoi_two_digits {a b : Char} (ha : isDigit a = true) (hb : isDigit b = true) :
    Atoi [a, b] = ((((a.toNat - 48) * 10 + (b.toNat - 48) : Nat) : Int), true) := by
  have ha2 := isDigit_cases ha
  have hb2 := isDigit_cases hb
  simp only [List.mem_cons, List.mem_singleton, List.not_mem_nil, or_false] at ha2 hb2
  rcases ha2 with rfl | rfl | rfl | rfl | rfl | rfl | rfl | rfl | rfl | rfl <;>
    rcases hb2 with rfl | rfl | rfl | rfl | rfl | rfl | rfl | rfl | rfl | rfl <;> decide

theorem isStartHour_mem {h1 h2 : Char} (h : isStartHour h1 h2 = true) :
    [h1, h2] ∈ startHourDigits := by
  simp only [isStartHour, Bool.or_eq_true, Bool.and_eq_true, beq_iff_eq, decide_eq_true_eq] at h
  rcases h with (⟨rfl, (rfl | rfl) | rfl⟩ | ⟨rfl, h⟩) | ⟨rfl, h⟩
  · decide
  · decide
  · decide
  · have h2c := isDigit_cases h
    simp only [List.mem_cons, List.mem_singleton, List.not_mem_nil, or_false] at h2c
    rcases h2c with rfl | rfl | rfl | rfl | rfl | rfl | rfl | rfl | rfl | rfl <;> decide
  · have hd : isDigit h2 = true := by
      simp only [isDigit, decide_eq_true_eq]; omega
    have h2c := isDigit_cases hd
    simp only [List.mem_cons, List.mem_singleton, List.not_mem_nil, or_false] at h2c
    rcases h2c with rfl | rfl | rfl | rfl | rfl | rfl | rfl | rfl | rfl | rfl <;>
      first
        | decide
        | (exfalso; revert h; decide)

theorem isEndHour_mem {h1 h2 : Char} (h : isEndHour h1 h2 = true) :
    [h1, h2] ∈ endHourDigits := by
  simp only [isEndHour, Bool.or_eq_true, Bool.and_eq_true, beq_iff_eq, decide_eq_true_eq] at h
  rcases h with (⟨rfl, (rfl | rfl) | rfl⟩ | ⟨rfl, h⟩) | ⟨rfl, h⟩
  · decide
  · decide
  · decide
  · have h2c := isDigit_cases h
    simp only [List.mem_cons, List.mem_singleton, List.not_mem_nil, or_false] at h2c
    rcases h2c with rfl | rfl | rfl | rfl | rfl | rfl | rfl | rfl | rfl | rfl <;> decide
  · have hd : isDigit h2 = true := by
      simp only [isDigit, decide_eq_true_eq]; omega
    have h2c := isDigit_cases hd
    simp only [List.mem_cons, List.mem_singleton, List.not_mem_nil, or_false] at h2c
    rcases h2c with rfl | rfl | rfl | rfl | rfl | rfl | rfl | rfl | rfl | rfl <;>
      first
        | decide
        | (exfalso; revert h; decide)

theorem minute_bounds {m1 m2 : Char} (h : isMinute m1 m2 = true) :
    0 ≤ (Atoi [m1, m2]).1 ∧ (Atoi [m1, m2]).1 ≤ 59 := by
  have hd := isMinute_digits h
  rw [Atoi_two_digits hd.1 hd.2]
  simp only [isMinute, isDigit, Bool.and_eq_true, decide_eq_true_eq] at h
  simp only
  omega

theorem startHour_bounds {hh : List Char} (h : hh ∈ startHourDigits) :
    (Atoi hh).1 = 0 ∨ (8 ≤ (Atoi hh).1 ∧ (Atoi hh).1 ≤ 22) := by
  simp only [startHourDigits, List.mem_cons, List.mem_singleton, List.not_mem_nil, or_false] at h
  rcases h with rfl | rfl | rfl | rfl | rfl | rfl | rfl | rfl | rfl | rfl | rfl | rfl | rfl
    | rfl | rfl | rfl <;> decide

theorem endHour_bounds {hh : List Char} (h : hh ∈ endHourDigits) :
    (Atoi hh).1 = 0 ∨ (8 ≤ (Atoi hh).1 ∧ (Atoi hh).1 ≤ 23) := by
  simp only [endHourDigits, startHourDigits, List.cons_append, List.nil_append, List.mem_cons,
    List.mem_singleton, List.not_mem_nil, or_false] at h
  rcases h with rfl | rfl | rfl | rfl | rfl | rfl | rfl | rfl | rfl | rfl | rfl | rfl | rfl
    | rfl | rfl | rfl | rfl <;> decide

/-- The fifth group of a slot line lies in the window of START. -/
theorem isStartTime_window {time : List Char} (h : isStartTime time = true) :
    InStartWindow time := by
  have hd := isStartTime_digits h
  match time, h with
  | [h1, h2, m1, m2], h =>
    simp only [isStartTime, Bool.and_eq_true] at h
    have hm := isStartHour_mem h.1
    exact ⟨hd.1, hd.2, hm, startHour_bounds hm, minute_bounds h.2⟩

/-- The sixth group of a slot line lies in the window of END. -/
theorem isEndTime_window {time : List Char} (h : isEndTime time = true) :
    InEndWindow time := by
  have hd := isEndTime_digits h
  match time, h with
  | [h1, h2, m1, m2], h =>
    simp only [isEndTime, Bool.and_eq_true] at h
    have hm := isEndHour_mem h.1
    exact ⟨hd.1, hd.2, hm, endHour_bounds hm, minute_bounds h.2⟩

/-! ## Facts about the stored slots -/

theorem mem_appendSlot {activities : Activities} {id : List Char} {slot : Slot}
    {entry : List Char × Activity} (h : entry ∈ appendSlot activities id slot) :
    ∃ old ∈ activities, entry.1 = old.1
      ∧ (entry.2.Slots = old.2.Slots ∨ entry.2.Slots = old.2.Slots ++ [slot]) := by
  simp only [appendSlot, List.mem_map] at h
  obtain ⟨old, hold, heq⟩ := h
  refine ⟨old, hold, ?_⟩
  split at heq
  · subst heq; exact ⟨rfl, Or.inr rfl⟩
  · subst heq; exact ⟨rfl, Or.inl rfl⟩

/-- A property that holds of every slot built from a matching slot line is
kept by one iteration of the loop. -/
theorem scanLine_slots (P : Slot → Prop)
    (hP : ∀ content g day, matchSlot content = some g → BuiltInDays.lookup g.day = some day →
      P (slotOfGroups g day))
    (toLower : List Char → List Char) (activities activities1 : Activities) (line : Nat)
    (text : List Char) (h : scanLine toLower activities line text = .next activities1)
    (hall : ∀ entry ∈ activities, ∀ slot ∈ entry.2.Slots, P slot) :
    ∀ entry ∈ activities1, ∀ slot ∈ entry.2.Slots, P slot := by
  unfold scanLine at h
  split at h
  · split at h
    · simp at h
    · split at h
      · simp at h
      · simp only [Step.next.injEq] at h
        subst h; exact hall
  · split at h
    · split at h
      · simp at h
      · split at h
        · simp at h
        · simp at h
        · simp only [Step.next.injEq] at h
          subst h
          intro entry hentry slot hslot
          rcases List.mem_append.mp hentry with hin | hin
          · exact hall entry hin slot hslot
          · simp only [List.mem_singleton] at hin
            subst hin
            simp at hslot
    · split at h
      · rename_i g hg
        split at h
        · simp at h
        · split at h
          · simp at h
          · rename_i day hday
            simp only [Step.next.injEq] at h
            subst h
            intro entry hentry slot hslot
            obtain ⟨old, hold, _, hs | hs⟩ := mem_appendSlot hentry
            · rw [hs] at hslot
              exact hall old hold slot hslot
            · rw [hs] at hslot
              rcases List.mem_append.mp hslot with hin | hin
              · exact hall old hold slot hin
              · simp only [List.mem_singleton] at hin
                subst hin
                exact hP text g day hg hday
      · split at h
        · simp only [Step.next.injEq] at h
          subst h; exact hall
        · split at h
          · simp only [Step.next.injEq] at h
            subst h; exact hall
          · simp at h

/-- A property that holds of every slot built from a matching slot line holds
of every slot of a parse result. -/
theorem scan_slots (P : Slot → Prop)
    (hP : ∀ content g day, matchSlot content = some g → BuiltInDays.lookup g.day = some day →
      P (slotOfGroups g day))
    (toLower : List Char → List Char) (lines : List (List Char)) :
    ∀ (activities activities1 : Activities) (line : Nat),
      scan toLower activities line lines = .processed activities1 →
      (∀ entry ∈ activities, ∀ slot ∈ entry.2.Slots, P slot) →
      ∀ entry ∈ activities1, ∀ slot ∈ entry.2.Slots, P slot := by
  induction lines with
  | nil =>
    intro activities activities1 line h hall
    simp only [scan, Outcome.processed.injEq] at h
    subst h; exact hall
  | cons text lines ih =>
    intro activities activities1 line h hall
    simp only [scan] at h
    cases hstep : scanLine toLower activities (line + 1) text with
    | fatal d => rw [hstep] at h; simp at h
    | panic => rw [hstep] at h; simp at h
    | next activities2 =>
      rw [hstep] at h
      exact ih activities2 activities1 (line + 1) h
        (scanLine_slots P hP toLower activities activities2 (line + 1) text hstep hall)

theorem parseInput_slots (P : Slot → Prop)
    (hP : ∀ content g day, matchSlot content = some g → BuiltInDays.lookup g.day = some day →
      P (slotOfGroups g day))
    (toLower : List Char → List Char) (lines : List (List Char)) (activities : Activities)
    (h : parseInput toLower lines = .processed activities) :
    ∀ entry ∈ activities, ∀ slot ∈ entry.2.Slots, P slot :=
  scan_slots P hP toLower lines [] activities 0 h (fun _ hentry => nomatch hentry)

/-! ## Facts about the days -/

theorem lookup_dayTokens {d : List Char} (h : d ∈ dayTokens) :
    ∃ i, BuiltInDays.lookup d = some i ∧ i ≤ 4 := by
  simp only [dayTokens, List.mem_cons, List.mem_singleton, List.not_mem_nil, or_false] at h
  rcases h with rfl | rfl | rfl | rfl | rfl | rfl | rfl | rfl | rfl | rfl
  · exact ⟨0, by decide, by decide⟩
  · exact ⟨1, by decide, by decide⟩
  · exact ⟨2, by decide, by decide⟩
  · exact ⟨3, by decide, by decide⟩
  · exact ⟨4, by decide, by decide⟩
  · exact ⟨0, by decide, by decide⟩
  · exact ⟨1, by decide, by decide⟩
  · exact ⟨2, by decide, by decide⟩
  · exact ⟨3, by decide, by decide⟩
  · exact ⟨4, by decide, by decide⟩

/-- The day group of a matching slot line is a key of `BuiltInDays`. -/
theorem matchSlot_day {content : List Char} {g : SlotGroups} (h : matchSlot content = some g) :
    ∃ i, BuiltInDays.lookup g.day = some i ∧ i ≤ 4 := by
  obtain ⟨_, _, _, _, _, _, h6, _, _⟩ := matchSlot_eq_some h
  exact lookup_dayTokens h6

/-- No iteration of the loop ends with `InvalidDay`. -/
theorem scanLine_ne_invalidDay (toLower : List Char → List Char) (activities : Activities)
    (line : Nat) (text : List Char) :
    scanLine toLower activities line text ≠ .fatal .InvalidDay := by
  unfold scanLine
  split
  · split
    · simp
    · split <;> simp
  · split
    · split
      · simp
      · split <;> simp
    · split
      · rename_i g hg
        split
        · simp
        · split
          · rename_i hday
            obtain ⟨i, hi, _⟩ := matchSlot_day hg
            rw [hi] at hday
            simp at hday
          · simp
      · split
        · simp
        · split <;> simp

theorem scan_ne_invalidDay (toLower : List Char → List Char) (lines : List (List Char)) :
    ∀ (activities acts : Activities) (line n : Nat),
      scan toLower activities line lines ≠ .fatal n .InvalidDay acts := by
  induction lines with
  | nil => intro activities acts line n; simp [scan]
  | cons text lines ih =>
    intro activities acts line n
    simp only [scan]
    cases hstep : scanLine toLower activities (line + 1) text with
    | next activities1 => exact ih activities1 acts (line + 1) n
    | panic => simp
    | fatal d =>
      simp only [ne_eq, Outcome.fatal.injEq, not_and]
      intro _ hd
      subst hd
      exact absurd hstep (scanLine_ne_invalidDay toLower activities (line + 1) text)

/-! ## Facts about the colours -/

theorem isHex_ne_hash {c : Char} (h : isHex c = true) : c ≠ '#' := by
  rintro rfl; revert h; decide

theorem hash_not_mem_of_hex {s : List Char} (h : s.all isHex = true) : '#' ∉ s :=
  fun hmem => isHex_ne_hash (List.all_eq_true.mp h _ hmem) rfl

/-- The loop over `BuiltInColors` finds the entry of every key of the table. -/
theorem find_BuiltInColors :
    ∀ entry ∈ BuiltInColors,
      BuiltInColors.find? (fun e => e.1 == entry.1) = some entry ∧ entry.2.Name = entry.1 := by
  decide

/-- The order in which `range BuiltInColors` enumerates the table does not
matter: in every order the loop finds the same entry, since no two entries
share a name. -/
theorem find_BuiltInColors_perm (table : List (List Char × Color))
    (hperm : table.Perm BuiltInColors) (key : List Char) :
    table.find? (fun e => e.1 == key) = BuiltInColors.find? (fun e => e.1 == key) := by
  have hnd : (BuiltInColors.map Prod.fst).Nodup := by decide
  cases h2 : BuiltInColors.find? (fun e => e.1 == key) with
  | none =>
    rw [List.find?_eq_none] at h2 ⊢
    intro e he
    exact h2 e (hperm.mem_iff.mp he)
  | some e =>
    have hk : (e.1 == key) = true := by
      have h := List.find?_some h2
      exact h
    have he : e ∈ BuiltInColors := List.mem_of_find?_eq_some h2
    cases h1 : table.find? (fun e => e.1 == key) with
    | none =>
      rw [List.find?_eq_none] at h1
      exact absurd hk (h1 e (hperm.mem_iff.mpr he))
    | some e1 =>
      have hk1 : (e1.1 == key) = true := by
        have h := List.find?_some h1
        exact h
      have he1 : e1 ∈ BuiltInColors := hperm.mem_iff.mp (List.mem_of_find?_eq_some h1)
      have hkeys : e1.1 = e.1 := by
        rw [beq_iff_eq] at hk hk1
        rw [hk, hk1]
      rw [List.inj_on_of_nodup_map hnd he1 he hkeys]

theorem find_none_of_not_mem (key : List Char) (table : List (List Char × Color))
    (h : key ∉ table.map Prod.fst) : table.find? (fun e => e.1 == key) = none := by
  rw [List.find?_eq_none]
  intro e he hk
  exact h (List.mem_map.mpr ⟨e, he, by simpa using hk⟩)

/-! ## Facts about the order of the slots -/

theorem matchSlot_eq_none_of_matchActivity {content : List Char}
    {m : List Char × List Char × List Char} (h : matchActivity content = some m) :
    matchSlot content = none := by
  cases hs : matchSlot content with
  | none => rfl
  | some g => rw [matchActivity_eq_none_of_matchSlot hs] at h; simp at h

theorem declaredIDs_append (pre rest : List (List Char)) :
    declaredIDs (pre ++ rest) = declaredIDs pre ++ declaredIDs rest := by
  simp only [declaredIDs, List.filterMap_append]

theorem slotRecords_append (id : List Char) (pre rest : List (List Char)) :
    slotRecords id (pre ++ rest) = slotRecords id pre ++ slotRecords id rest := by
  simp only [slotRecords, List.filterMap_append]

theorem slotRecords_single_none (id text : List Char) (h : matchSlot text = none) :
    slotRecords id [text] = [] := by
  simp [slotRecords, List.filterMap_cons, h]

theorem slotRecords_single_other (id text : List Char) (g : SlotGroups)
    (h : matchSlot text = some g) (hne : ¬ g.id = id) : slotRecords id [text] = [] := by
  simp [slotRecords, List.filterMap_cons, h, hne]

theorem slotRecords_single_same (text : List Char) (g : SlotGroups) (day : Nat)
    (h : matchSlot text = some g) (hday : BuiltInDays.lookup g.day = some day) :
    slotRecords g.id [text] = [slotOfGroups g day] := by
  simp [slotRecords, List.filterMap_cons, h, hday]

/-- No slot record for an ID that no slot line carries. -/
theorem slotRecords_eq_nil (id : List Char) (lines : List (List Char))
    (h : ∀ text ∈ lines, ∀ g, matchSlot text = some g → g.id ≠ id) :
    slotRecords id lines = [] := by
  induction lines with
  | nil => rfl
  | cons text lines ih =>
    have hrest := ih (fun t ht g hg => h t (List.mem_cons_of_mem _ ht) g hg)
    have hsplit : slotRecords id (text :: lines)
        = slotRecords id [text] ++ slotRecords id lines :=
      slotRecords_append id [text] lines
    rw [hsplit, hrest, List.append_nil]
    cases hs : matchSlot text with
    | none => exact slotRecords_single_none id text hs
    | some g =>
      exact slotRecords_single_other id text g hs (h text (List.mem_cons_self _ _) g hs)

theorem declaredIDs_single_none (text : List Char) (h : matchActivity text = none) :
    declaredIDs [text] = [] := by
  simp [declaredIDs, List.filterMap_cons, h]

/-- An accepted line that is neither an activity line nor a slot line leaves
the agreement as it is. -/
theorem AgreesWith_skip {pre : List (List Char)} {activities : Activities} {text : List Char}
    (hinv : AgreesWith pre activities) (ha : matchActivity text = none)
    (hs : matchSlot text = none) : AgreesWith (pre ++ [text]) activities := by
  obtain ⟨h1, h2, h3⟩ := hinv
  refine ⟨?_, ?_, ?_⟩
  · rw [declaredIDs_append, declaredIDs_single_none text ha, List.append_nil, h1]
  · intro entry hentry
    rw [slotRecords_append, slotRecords_single_none _ text hs, List.append_nil]
    exact h2 entry hentry
  · intro t ht g hg
    rcases List.mem_append.mp ht with hin | hin
    · exact h3 t hin g hg
    · simp only [List.mem_singleton] at hin
      subst hin
      rw [hs] at hg
      simp at hg

/-- One accepted line, from line 2 on, keeps the agreement between the map
and the lines read. -/
theorem scanLine_agrees (toLower : List Char → List Char) (pre : List (List Char))
    (activities activities1 : Activities) (line : Nat) (text : List Char) (hl : line ≠ 1)
    (hinv : AgreesWith pre activities)
    (h : scanLine toLower activities line text = .next activities1) :
    AgreesWith (pre ++ [text]) activities1 := by
  have hkeys := scanLine_keys toLower activities activities1 line text hl h
  unfold scanLine at h
  simp only [hl, if_false] at h
  cases hact : matchActivity text with
  | some m =>
    obtain ⟨id, colorString, name⟩ := m
    have hnoslot := matchSlot_eq_none_of_matchActivity hact
    rw [hact] at h
    simp only at h
    split at h
    · simp at h
    · rename_i hlook
      split at h
      · simp at h
      · simp at h
      · rename_i color hcolor
        simp only [Step.next.injEq] at h
        subst h
        obtain ⟨h1, h2, h3⟩ := hinv
        have hfresh : id ∉ activities.map Prod.fst := (lookup_eq_none_iff id activities).mp hlook
        refine ⟨?_, ?_, ?_⟩
        · rw [hkeys, declaredIDs_append, h1]
        · intro entry hentry
          rw [slotRecords_append, slotRecords_single_none _ text hnoslot, List.append_nil]
          rcases List.mem_append.mp hentry with hin | hin
          · exact h2 entry hin
          · simp only [List.mem_singleton] at hin
            subst hin
            refine ⟨rfl, ?_⟩
            simp only
            rw [slotRecords_eq_nil id pre]
            intro t ht g hg hid
            exact hfresh (hid ▸ h3 t ht g hg)
        · intro t ht g hg
          rw [List.map_append]
          rcases List.mem_append.mp ht with hin | hin
          · exact List.mem_append_left _ (h3 t hin g hg)
          · simp only [List.mem_singleton] at hin
            subst hin
            rw [hnoslot] at hg
            simp at hg
  | none =>
    rw [hact] at h
    simp only at h
    split at h
    · rename_i g hg
      split at h
      · simp at h
      · rename_i act hlook
        split at h
        · simp at h
        · rename_i day hday
          simp only [Step.next.injEq] at h
          subst h
          obtain ⟨h1, h2, h3⟩ := hinv
          have hkey : g.id ∈ activities.map Prod.fst := by
            by_contra hcon
            rw [(lookup_eq_none_iff g.id activities).mpr hcon] at hlook
            simp at hlook
          refine ⟨?_, ?_, ?_⟩
          · rw [hkeys, declaredIDs_append, h1]
          · intro entry hentry
            simp only [appendSlot, List.mem_map] at hentry
            obtain ⟨old, hold, heq⟩ := hentry
            obtain ⟨hid, hslots⟩ := h2 old hold
            rw [slotRecords_append]
            by_cases hsame : old.1 = g.id
            · simp only [hsame, if_true] at heq
              subst heq
              simp only
              refine ⟨by rw [hid, hsame], ?_⟩
              rw [slotRecords_single_same text g day hg hday, hslots, hsame]
            · simp only [hsame, if_false] at heq
              subst heq
              refine ⟨hid, ?_⟩
              rw [slotRecords_single_other old.1 text g hg (fun e => hsame e.symm),
                List.append_nil]
              exact hslots
          · intro t ht g2 hg2
            rw [appendSlot_keys]
            rcases List.mem_append.mp ht with hin | hin
            · exact h3 t hin g2 hg2
            · simp only [List.mem_singleton] at hin
              subst hin
              rw [hg] at hg2
              simp only [Option.some.injEq] at hg2
              subst hg2
              exact hkey
    · rename_i hnoslot
      have hsame : activities1 = activities := by
        split at h
        · simp only [Step.next.injEq] at h
          exact h.symm
        · split at h
          · simp only [Step.next.injEq] at h
            exact h.symm
          · simp at h
      subst hsame
      exact AgreesWith_skip hinv hact hnoslot

/-- The lines scanned without error, from line 2 on, keep the agreement. -/
theorem scan_agrees (toLower : List Char → List Char) (rest : List (List Char)) :
    ∀ (pre : List (List Char)) (activities activities1 : Activities) (line : Nat),
      1 ≤ line → AgreesWith pre activities →
      scan toLower activities line rest = .processed activities1 →
      AgreesWith (pre ++ rest) activities1 := by
  induction rest with
  | nil =>
    intro pre activities activities1 line _ hinv h
    simp only [scan, Outcome.processed.injEq] at h
    subst h
    rw [List.append_nil]
    exact hinv
  | cons text rest ih =>
    intro pre activities activities1 line hl hinv h
    simp only [scan] at h
    cases hstep : scanLine toLower activities (line + 1) text with
    | fatal d => rw [hstep] at h; simp at h
    | panic => rw [hstep] at h; simp at h
    | next activities2 =>
      rw [hstep] at h
      have hinv2 := scanLine_agrees toLower pre activities activities2 (line + 1) text
        (by omega) hinv hstep
      have := ih (pre ++ [text]) activities2 activities1 (line + 1) (by omega) hinv2 h
      rw [List.append_assoc] at this
      exact this

/-! ## Facts about the derived values -/

theorem slice_four {a b c d : Char} (ha : a.toNat < 128) (hb : b.toNat < 128)
    (hc : c.toNat < 128) (hd : d.toNat < 128) :
    slice [a, b, c, d] 0 2 = some [a, b] ∧ slice [a, b, c, d] 2 4 = some [c, d] := by
  simp [slice, splitAtByte, utf8Len, ha, hb, hc, hd]

theorem length_four {s : List Char} (h : s.length = 4) : ∃ a b c d, s = [a, b, c, d] := by
  match s, h with
  | [a, b, c, d], _ => exact ⟨a, b, c, d, rfl⟩

theorem isDigit_ascii {c : Char} (h : isDigit c = true) : c.toNat < 128 := by
  simp only [isDigit, decide_eq_true_eq] at h
  omega

theorem digitsValue_two (a b : Char) :
    digitsValue [a, b] = (a.toNat - 48) * 10 + (b.toNat - 48) := by
  simp only [digitsValue, List.foldl_cons, List.foldl_nil]
  omega

/-- The numbers that the methods read from a time of four decimal digits. -/
theorem Atoi_of_time {a b c d : Char} (ha : isDigit a = true) (hb : isDigit b = true)
    (hc : isDigit c = true) (hd : isDigit d = true) :
    slice [a, b, c, d] 0 2 = some [a, b] ∧ slice [a, b, c, d] 2 4 = some [c, d]
      ∧ Atoi [a, b] = ((digitsValue [a, b] : Int), true)
      ∧ Atoi [c, d] = ((digitsValue [c, d] : Int), true) := by
  obtain ⟨h1, h2⟩ := slice_four (isDigit_ascii ha) (isDigit_ascii hb) (isDigit_ascii hc)
    (isDigit_ascii hd)
  refine ⟨h1, h2, ?_, ?_⟩
  · rw [Atoi_two_digits ha hb, digitsValue_two]
  · rw [Atoi_two_digits hc hd, digitsValue_two]

theorem char_eq_of_toNat {c : Char} {n : Nat} (h : c.toNat = n) : c = Char.ofNat n := by
  rw [← h, Char.ofNat_toNat]

/-- The value of `Duration` on times of four decimal digits. -/
theorem duration_value_aux (s : Slot)
    (hs : s.Start.length = 4) (hsd : s.Start.all isDigit = true)
    (he : s.End.length = 4) (hed : s.End.all isDigit = true) :
    Duration s = some
        (((digitsValue (s.End.take 2) : Int) * 60 + (digitsValue (s.End.drop 2) : Int))
          - ((digitsValue (s.Start.take 2) : Int) * 60 + (digitsValue (s.Start.drop 2) : Int))) := by
  obtain ⟨a, b, c, d, hS⟩ := length_four hs
  obtain ⟨e, f, g, h, hE⟩ := length_four he
  rw [hS] at hsd
  rw [hE] at hed
  simp only [List.all_cons, List.all_nil, Bool.and_true, Bool.and_eq_true] at hsd hed
  obtain ⟨s1, s2, s3, s4⟩ := Atoi_of_time hsd.1 hsd.2.1 hsd.2.2.1 hsd.2.2.2
  obtain ⟨e1, e2, e3, e4⟩ := Atoi_of_time hed.1 hed.2.1 hed.2.2.1 hed.2.2.2
  simp only [Duration, hS, hE, s1, s2, s3, s4, e1, e2, e3, e4]
  rfl

/-! ## Facts about comments, blank lines and fatal lines -/

theorem isIDChar_ne_hash {c : Char} (h : isIDChar c = true) : c ≠ '#' := by
  rintro rfl; revert h; decide

/-- A line that begins with `#` matches neither `RuleActivity` nor `RuleSlot`:
both begin with an ID, and `#` is no character of an ID. -/
theorem hash_line_no_match (tail : List Char) :
    matchActivity ('#' :: tail) = none ∧ matchSlot ('#' :: tail) = none := by
  constructor
  · cases h : matchActivity ('#' :: tail) with
    | none => rfl
    | some m =>
      obtain ⟨id, colorString, name⟩ := m
      obtain ⟨hc, h1, h2, _⟩ := (matchActivity_iff _ _ _ _).mp h
      cases id with
      | nil => exact absurd rfl h1
      | cons c cs =>
        simp only [List.cons_append, List.cons.injEq] at hc
        simp only [List.all_cons, Bool.and_eq_true] at h2
        exact absurd hc.1.symm (isIDChar_ne_hash h2.1)
  · cases h : matchSlot ('#' :: tail) with
    | none => rfl
    | some g =>
      obtain ⟨hc, h1, h2, _⟩ := (matchSlot_iff _ _).mp h
      cases hid : g.id with
      | nil => exact absurd hid h1
      | cons c cs =>
        rw [hid] at hc h2
        simp only [List.cons_append, List.cons.injEq] at hc
        simp only [List.all_cons, Bool.and_eq_true] at h2
        exact absurd hc.1.symm (isIDChar_ne_hash h2.1)

/-- From line 2 on, a line made of `#` and at least one more character, none
of them a line feed, is skipped. -/
theorem scanLine_comment (toLower : List Char → List Char) (activities : Activities)
    (line : Nat) (tail : List Char) (hl : line ≠ 1) (htail : tail ≠ [])
    (hnl : '\n' ∉ tail) :
    scanLine toLower activities line ('#' :: tail) = .next activities := by
  obtain ⟨ha, hs⟩ := hash_line_no_match tail
  have hc : matchComment ('#' :: tail) = true := by
    have hdot : tail.all isDot = true := by
      rw [List.all_eq_true]
      intro c hc
      simp only [isDot, bne_iff_ne, ne_eq]
      rintro rfl
      exact hnl hc
    have he : tail.isEmpty = false := by simpa using htail
    simp [matchComment, hdot, he]
  simp only [scanLine, hl, if_false, ha, hs, hc, if_true]

/-- From line 2 on, a blank line is skipped. -/
theorem scanLine_blank (toLower : List Char → List Char) (activities : Activities)
    (line : Nat) (hl : line ≠ 1) :
    scanLine toLower activities line [] = .next activities := by
  have ha : matchActivity [] = none := by decide
  have hs : matchSlot [] = none := by decide
  have hc : matchComment [] = false := by decide
  simp [scanLine, hl, ha, hs, hc]

/-- Two lines that the loop treats alike, from line 2 on, can stand for each
other anywhere after line 1. -/
theorem parseInput_congr_line (toLower : List Char → List Char) (first : List Char)
    (pre rest : List (List Char)) (text1 text2 : List Char)
    (h : ∀ activities line, line ≠ 1 →
      scanLine toLower activities line text1 = scanLine toLower activities line text2) :
    parseInput toLower (first :: (pre ++ text1 :: rest))
      = parseInput toLower (first :: (pre ++ text2 :: rest)) := by
  simp only [parseInput, scan]
  cases scanLine toLower [] (0 + 1) first with
  | fatal d => rfl
  | panic => rfl
  | next activities1 =>
    simp only
    rw [scan_append, scan_append]
    cases scan toLower activities1 (0 + 1) pre with
    | fatal n d a => rfl
    | panic n => rfl
    | processed activities2 =>
      simp only [scan]
      rw [h activities2 (0 + 1 + pre.length + 1) (by omega)]

/-- Where a run that ends with `log.Fatalf` stops: the lines before the fatal
line were scanned without error, and the iteration on the fatal line gave the
diagnostic. -/
theorem scan_fatal_inv (toLower : List Char → List Char) (lines : List (List Char)) :
    ∀ (activities acts : Activities) (line n : Nat) (d : Diagnostic),
      scan toLower activities line lines = .fatal n d acts →
      ∃ pre text rest, lines = pre ++ text :: rest ∧ n = line + pre.length + 1
        ∧ scan toLower activities line pre = .processed acts
        ∧ scanLine toLower acts n text = .fatal d := by
  induction lines with
  | nil => intro activities acts line n d h; simp [scan] at h
  | cons text lines ih =>
    intro activities acts line n d h
    simp only [scan] at h
    cases hstep : scanLine toLower activities (line + 1) text with
    | panic => rw [hstep] at h; simp at h
    | fatal d1 =>
      rw [hstep] at h
      simp only [Outcome.fatal.injEq] at h
      obtain ⟨rfl, rfl, rfl⟩ := h
      exact ⟨[], text, lines, rfl, by simp, by simp [scan], hstep⟩
    | next activities1 =>
      rw [hstep] at h
      obtain ⟨pre, t, rest, hl, hn, hpre, hfat⟩ := ih activities1 acts (line + 1) n d h
      refine ⟨text :: pre, t, rest, by simp [hl], by simp only [List.length_cons]; omega, ?_,
        hfat⟩
      simp only [scan, hstep]
      exact hpre

theorem get?_append_length (pre rest : List (List Char)) (text : List Char) :
    (pre ++ text :: rest).get? pre.length = some text := by
  induction pre with
  | nil => rfl
  | cons x pre ih => simpa [List.get?] using ih

/-- The only lines on which an iteration ends with `InvalidSyntax`. -/
theorem scanLine_invalidSyntax (toLower : List Char → List Char) (activities : Activities)
    (line : Nat) (text : List Char)
    (h : scanLine toLower activities line text = .fatal .InvalidSyntax) :
    line ≠ 1 ∧ text ≠ [] ∧ matchActivity text = none ∧ matchSlot text = none
      ∧ matchComment text = false := by
  unfold scanLine at h
  split at h
  · split at h
    · simp at h
    · split at h <;> simp at h
  · rename_i hl
    split at h
    · split at h
      · simp at h
      · split at h <;> simp at h
    · rename_i ha
      split at h
      · split at h
        · simp at h
        · split at h <;> simp at h
      · rename_i hs
        split at h
        · simp at h
        · rename_i hc
          split at h
          · simp at h
          · rename_i ht
            exact ⟨hl, ht, ha, hs, by simpa using hc⟩

/-! ## Facts about the day buckets -/

theorem writeDay_length (days : List (List Char)) (day : Nat) (text : List Char) :
    (writeDay days day text).length = days.length := by
  induction days generalizing day with
  | nil => rfl
  | cons b bs ih =>
    cases day with
    | zero => rfl
    | succ d => simp [writeDay, ih]

theorem writeDay_get? (days : List (List Char)) (day : Nat) (text : List Char) (i : Nat) :
    (writeDay days day text).get? i
      = (days.get? i).map (fun buffer => if i = day then buffer ++ text else buffer) := by
  induction days generalizing day i with
  | nil => simp [writeDay]
  | cons b bs ih =>
    cases day with
    | zero =>
      cases i with
      | zero => simp [writeDay]
      | succ j =>
        simp only [writeDay, List.get?_cons_succ]
        cases bs.get? j <;> simp
    | succ d =>
      cases i with
      | zero => simp [writeDay]
      | succ j =>
        simp only [writeDay, List.get?_cons_succ, ih d j]
        cases bs.get? j <;> simp

theorem emptyDays_get? {day : Nat} (h : day < 5) :
    (List.replicate 5 ([] : List Char)).get? day = some [] := by
  interval_cases day <;> rfl

/-- The rendered slots of one day among a list of slots, joined. -/
theorem renderSlots_days (render : Slot → Option (List Char)) (slots : List Slot) :
    ∀ (days days1 : List (List Char)), renderSlots render days slots = .days days1 →
      days1.length = days.length
        ∧ (∀ slot ∈ slots, (∃ text, render slot = some text) ∧ slot.Day < days.length)
        ∧ ∀ i, days1.get? i = (days.get? i).map (fun buffer =>
            buffer ++ ((slots.filter (fun slot => slot.Day = i)).filterMap render).flatten) := by
  induction slots with
  | nil =>
    intro days days1 h
    simp only [renderSlots, Grouping.days.injEq] at h
    subst h
    refine ⟨rfl, by simp, ?_⟩
    intro i
    cases days.get? i <;> simp
  | cons slot rest ih =>
    intro days days1 h
    simp only [renderSlots] at h
    cases hr : render slot with
    | none => rw [hr] at h; simp at h
    | some text =>
      rw [hr] at h
      simp only at h
      by_cases hd : slot.Day < days.length
      · simp only [hd, if_true] at h
        obtain ⟨h1, h2, h3⟩ := ih _ _ h
        rw [writeDay_length] at h1 h2
        refine ⟨h1, ?_, ?_⟩
        · intro s hs
          rcases List.mem_cons.mp hs with rfl | hs
          · exact ⟨⟨text, hr⟩, hd⟩
          · exact h2 s hs
        · intro i
          rw [h3 i, writeDay_get?]
          cases days.get? i with
          | none => rfl
          | some buffer =>
            simp only [Option.map_some', Option.some.injEq]
            by_cases hi : i = slot.Day
            · subst hi
              simp [List.filter_cons, hr]
            · have hi2 : ¬ slot.Day = i := fun e => hi e.symm
              simp [List.filter_cons, hi, hi2]
      · simp [hd] at h

/-- The loop over the slots ends with the buffers filled when every slot can be
rendered and has its day within the buffers. -/
theorem renderSlots_ok (render : Slot → Option (List Char)) (slots : List Slot) :
    ∀ (days : List (List Char)),
      (∀ slot ∈ slots, (∃ text, render slot = some text) ∧ slot.Day < days.length) →
      ∃ days1, renderSlots render days slots = .days days1 := by
  induction slots with
  | nil => intro days _; exact ⟨days, rfl⟩
  | cons slot rest ih =>
    intro days h
    obtain ⟨⟨text, hr⟩, hd⟩ := h slot (List.mem_cons_self _ _)
    simp only [renderSlots, hr, hd, if_true]
    apply ih
    intro s hs
    rw [writeDay_length]
    exact h s (List.mem_cons_of_mem _ hs)

theorem renderSlots_append (render : Slot → Option (List Char)) (a b : List Slot) :
    ∀ (days : List (List Char)),
      renderSlots render days (a ++ b) =
        match renderSlots render days a with
        | .days days1 => renderSlots render days1 b
        | .fatal => .fatal
        | .panic => .panic := by
  induction a with
  | nil => intro days; rfl
  | cons slot rest ih =>
    intro days
    simp only [List.cons_append, renderSlots]
    cases render slot with
    | none => rfl
    | some text =>
      simp only
      split
      · exact ih _
      · rfl

/-- The two nested loops of `processInput` meet the slots in the order of the
activities and, within an activity, in the order of its slots. -/
theorem renderActivities_eq (render : Slot → Option (List Char))
    (enumeration : List (List Char × Activity)) :
    ∀ (days : List (List Char)),
      renderActivities render days enumeration
        = renderSlots render days (enumeration.flatMap (fun entry => entry.2.Slots)) := by
  induction enumeration with
  | nil => intro days; rfl
  | cons entry rest ih =>
    intro days
    simp only [renderActivities, List.flatMap_cons, renderSlots_append]
    cases renderSlots render days entry.2.Slots with
    | days days1 => exact ih days1
    | fatal => rfl
    | panic => rfl

theorem dayPieces_eq (render : Slot → Option (List Char)) (day : Nat)
    (enumeration : List (List Char × Activity)) :
    dayPieces render day enumeration
      = (((enumeration.flatMap (fun entry => entry.2.Slots)).filter
          (fun slot => slot.Day = day)).filterMap render) := by
  induction enumeration with
  | nil => rfl
  | cons entry rest ih =>
    simp only [dayPieces, List.flatMap_cons, List.filter_append, List.filterMap_append] at ih ⊢
    rw [ih]

/-- In a list where at most one element gives a piece that is not empty, the
pieces joined do not depend on the order of the list. -/
theorem flatMap_eq_of_perm {α β : Type} (c : α → List β) {l1 l2 : List α}
    (hperm : l1.Perm l2)
    (h : ∀ x ∈ l1, ∀ y ∈ l1, c x ≠ [] → c y ≠ [] → x = y) :
    l1.flatMap c = l2.flatMap c := by
  induction hperm with
  | nil => rfl
  | cons x _ ih =>
    simp only [List.flatMap_cons]
    rw [ih (fun a ha b hb => h a (List.mem_cons_of_mem _ ha) b (List.mem_cons_of_mem _ hb))]
  | swap x y l =>
    simp only [List.flatMap_cons]
    by_cases hx : c x = []
    · simp [hx]
    · by_cases hy : c y = []
      · simp [hy]
      · have : y = x := h y (by simp) x (by simp) hy hx
        rw [this]
  | trans p1 _ ih1 ih2 =>
    rw [ih1 h]
    exact ih2 (fun a ha b hb => h a (p1.mem_iff.mpr ha) b (p1.mem_iff.mpr hb))

/-! ## Facts about the inline style -/

/-- The rounding to the nearest integer moves a number by at most 1/2. -/
theorem roundHalfEven_near (x : ℚ) : |(roundHalfEven x : ℚ) - x| ≤ 1 / 2 := by
  have h1 : (⌊x⌋ : ℚ) ≤ x := Int.floor_le x
  have h2 : x < ⌊x⌋ + 1 := Int.lt_floor_add_one x
  unfold roundHalfEven
  split
  · rw [abs_le]; constructor <;> linarith
  · split
    · push_cast; rw [abs_le]; constructor <;> linarith
    · have h3 : x - ⌊x⌋ = 1 / 2 := by linarith
      split
      · rw [abs_le]; constructor <;> linarith
      · push_cast; rw [abs_le]; constructor <;> linarith

/-- A number less than 1/2 away from an integer rounds to this integer. -/
theorem roundHalfEven_eq (x : ℚ) (k : ℤ) (h : |x - k| < 1 / 2) : roundHalfEven x = k := by
  rw [abs_lt] at h
  obtain ⟨h1, h2⟩ := h
  by_cases hk : (k : ℚ) ≤ x
  · have hf : ⌊x⌋ = k := by
      rw [Int.floor_eq_iff]; constructor <;> linarith
    unfold roundHalfEven
    rw [hf]
    have : x - k < 1 / 2 := by linarith
    rw [if_pos this]
  · have hf : ⌊x⌋ = k - 1 := by
      rw [Int.floor_eq_iff]; push_cast; constructor <;> linarith
    unfold roundHalfEven
    rw [hf]
    push_cast
    have a1 : ¬ (x - (k - 1) < 1 / 2) := by linarith
    have a2 : (1 : ℚ) / 2 < x - (k - 1) := by linarith
    simp only [a1, a2, if_false, if_true]
    ring

/-- The number that `roundFloat64` rounds to an integer lies between 2^52 and
2^53: the result has a significand of 53 bits. -/
theorem significand_range (y : ℚ) (hy : y ≠ 0) :
    (2 : ℚ) ^ 52 ≤ |y| / 2 ^ (Int.log 2 |y| - 52)
      ∧ |y| / 2 ^ (Int.log 2 |y| - 52) < 2 ^ 53 := by
  have habs : 0 < |y| := abs_pos.mpr hy
  have hlo : (2 : ℚ) ^ Int.log 2 |y| ≤ |y| := by
    have := Int.zpow_log_le_self (b := 2) (r := |y|) (by norm_num) habs
    simpa using this
  have hhi : |y| < (2 : ℚ) ^ (Int.log 2 |y| + 1) := by
    have := Int.lt_zpow_succ_log_self (b := 2) (by norm_num) |y|
    simpa using this
  have hpos : (0 : ℚ) < 2 ^ Int.log 2 |y| := by positivity
  have hulp : (2 : ℚ) ^ (Int.log 2 |y| - 52) = 2 ^ Int.log 2 |y| / 2 ^ 52 := by
    rw [zpow_sub₀ (by norm_num)]; norm_cast
  have hsucc : (2 : ℚ) ^ (Int.log 2 |y| + 1) = 2 ^ Int.log 2 |y| * 2 := by
    rw [zpow_add₀ (by norm_num)]; norm_num
  rw [hsucc] at hhi
  rw [hulp]
  constructor
  · rw [le_div_iff₀ (by positivity)]
    have : (2 : ℚ) ^ 52 * (2 ^ Int.log 2 |y| / 2 ^ 52) = 2 ^ Int.log 2 |y| := by
      field_simp
    rw [this]; exact hlo
  · rw [div_lt_iff₀ (by positivity)]
    have : (2 : ℚ) ^ 53 * (2 ^ Int.log 2 |y| / 2 ^ 52) = 2 ^ Int.log 2 |y| * 2 := by
      field_simp; ring
    rw [this]; exact hhi

/-- The rounding to `float64` has a relative error of at most 2^-53. -/
theorem roundFloat64_near (y : ℚ) : |roundFloat64 y - y| ≤ |y| / 2 ^ 53 := by
  unfold roundFloat64
  split
  · rename_i h; subst h; simp
  · rename_i hy
    have habs : 0 < |y| := abs_pos.mpr hy
    have hlog : (2 : ℚ) ^ Int.log 2 |y| ≤ |y| := by
      have := Int.zpow_log_le_self (b := 2) (r := |y|) (by norm_num) habs
      simpa using this
    have hulp : (0 : ℚ) < 2 ^ (Int.log 2 |y| - 52) := by positivity
    have hulp2 : (2 : ℚ) ^ (Int.log 2 |y| - 52) = 2 ^ Int.log 2 |y| / 2 ^ 52 := by
      rw [zpow_sub₀ (by norm_num)]; norm_cast
    have hnear := roundHalfEven_near (|y| / 2 ^ (Int.log 2 |y| - 52))
    set u : ℚ := 2 ^ (Int.log 2 |y| - 52) with hu
    set r : ℚ := (roundHalfEven (|y| / u) : ℚ) with hr
    have hmain : abs (r * u - abs y) ≤ abs y / 2 ^ 53 := by
      have e : r * u - abs y = (r - abs y / u) * u := by field_simp
      rw [e, abs_mul, abs_of_pos hulp]
      have : abs (r - abs y / u) * u ≤ 1 / 2 * u := mul_le_mul_of_nonneg_right hnear hulp.le
      have hu2 : 1 / 2 * u ≤ |y| / 2 ^ 53 := by
        rw [hulp2]
        have : (2 : ℚ) ^ Int.log 2 |y| / 2 ^ 52 * (1 / 2) = 2 ^ Int.log 2 |y| / 2 ^ 53 := by
          ring
        rw [mul_comm, this]
        exact div_le_div_of_nonneg_right hlog (by positivity)
      linarith
    split
    · rename_i hneg
      have hy2 : |y| = -y := abs_of_neg hneg
      have e : -(r * u) - y = -(r * u - |y|) := by rw [hy2]; ring
      rw [e, abs_neg]
      exact hmain
    · rename_i hneg
      have hy2 : |y| = y := abs_of_nonneg (not_lt.mp hneg)
      have e : r * u - y = r * u - |y| := by rw [hy2]
      rw [e]
      exact hmain

/-- The `float64` quotient `float64(n) / 10`, times 10, is close to `n`. -/
theorem tenthOf_near (n : ℤ) : |tenthOf n * 10 - n| ≤ 3 * |(n : ℚ)| / 2 ^ 53 := by
  unfold tenthOf
  have ha := roundFloat64_near (n : ℚ)
  have hq := roundFloat64_near (roundFloat64 (n : ℚ) / 10)
  set a : ℚ := roundFloat64 (n : ℚ) with hadef
  set q : ℚ := roundFloat64 (a / 10) with hqdef
  have hn0 : 0 ≤ |(n : ℚ)| := abs_nonneg _
  have habs : |a| ≤ 2 * |(n : ℚ)| := by
    have h1 : |a| ≤ |a - n| + |(n : ℚ)| := by
      have := abs_add (a - n) (n : ℚ)
      simpa using this
    have h2 : |(n : ℚ)| / 2 ^ 53 ≤ |(n : ℚ)| := by
      apply div_le_self hn0
      norm_num
    linarith
  have hq2 : |q - a / 10| ≤ |a| / 10 / 2 ^ 53 := by
    have e : |a / 10| = |a| / 10 := by rw [abs_div]; norm_num
    rw [e] at hq
    exact hq
  have e : q * 10 - n = 10 * (q - a / 10) + (a - n) := by ring
  rw [e]
  have h3 := abs_add (10 * (q - a / 10)) (a - n)
  have h4 : |10 * (q - a / 10)| = 10 * |q - a / 10| := by rw [abs_mul]; norm_num
  rw [h4] at h3
  have h5 : 10 * |q - a / 10| ≤ |a| / 2 ^ 53 := by
    have : 10 * |q - a / 10| ≤ 10 * (|a| / 10 / 2 ^ 53) := by linarith
    have e2 : 10 * (|a| / 10 / 2 ^ 53) = |a| / 2 ^ 53 := by ring
    linarith
  have h6 : |a| / 2 ^ 53 ≤ 2 * |(n : ℚ)| / 2 ^ 53 :=
    div_le_div_of_nonneg_right habs (by positivity)
  have e3 : 3 * |(n : ℚ)| / 2 ^ 53 = 2 * |(n : ℚ)| / 2 ^ 53 + |(n : ℚ)| / 2 ^ 53 := by ring
  linarith

/-- The verb `%.1f` prints the `float64` quotient `float64(n) / 10` as the
exact decimal numeral of `n/10`, for every `n` of a size below 2^50. -/
theorem formatF1_tenthOf (n : ℤ) (h1 : -(2 ^ 50) < n) (h2 : n < 2 ^ 50) :
    formatF1 (tenthOf n) = tenths n := by
  have hnear := tenthOf_near n
  have hnq : |(n : ℚ)| < 2 ^ 50 := by
    rw [abs_lt]
    constructor
    · have : ((-(2 ^ 50) : ℤ) : ℚ) < (n : ℚ) := by exact_mod_cast h1
      simpa using this
    · have : (n : ℚ) < ((2 ^ 50 : ℤ) : ℚ) := by exact_mod_cast h2
      simpa using this
  have hn0 : 0 ≤ |(n : ℚ)| := abs_nonneg _
  have hlt : |tenthOf n * 10 - n| < 1 / 2 := by
    have : 3 * |(n : ℚ)| / 2 ^ 53 < 1 / 2 := by
      rw [div_lt_iff₀ (by positivity)]
      have : (1 : ℚ) / 2 * 2 ^ 53 = 2 ^ 52 := by norm_num
      rw [this]
      have : 3 * |(n : ℚ)| < 3 * 2 ^ 50 := by linarith
      have : (3 : ℚ) * 2 ^ 50 < 2 ^ 52 := by norm_num
      linarith
    linarith
  have hlt2 : n ≠ 0 → |tenthOf n * 10 - n| < |(n : ℚ)| := by
    intro hne
    have hpos : 0 < |(n : ℚ)| := abs_pos.mpr (by exact_mod_cast hne)
    have : 3 * |(n : ℚ)| / 2 ^ 53 < |(n : ℚ)| := by
      rw [div_lt_iff₀ (by positivity)]
      have : |(n : ℚ)| * 2 ^ 53 = 3 * |(n : ℚ)| + (2 ^ 53 - 3) * |(n : ℚ)| := by ring
      rw [this]
      have : 0 < ((2 : ℚ) ^ 53 - 3) * |(n : ℚ)| := mul_pos (by norm_num) hpos
      linarith
    linarith
  have hsign : tenthOf n < 0 ↔ n < 0 := by
    rcases lt_trichotomy n 0 with hn | hn | hn
    · have hnq2 : (n : ℚ) < 0 := by exact_mod_cast hn
      have := hlt2 (ne_of_lt hn)
      rw [abs_of_neg hnq2, abs_lt] at this
      constructor
      · intro _; exact hn
      · intro _; linarith
    · subst hn
      have : tenthOf 0 = 0 := by simp [tenthOf, roundFloat64]
      rw [this]
      simp
    · have hnq2 : (0 : ℚ) < n := by exact_mod_cast hn
      have := hlt2 (ne_of_gt hn)
      rw [abs_of_pos hnq2, abs_lt] at this
      constructor
      · intro h; linarith
      · intro h; omega
  have hround : roundHalfEven (|tenthOf n| * 10) = (n.natAbs : ℤ) := by
    apply roundHalfEven_eq
    have e1 : |tenthOf n| * 10 = |tenthOf n * 10| := by rw [abs_mul]; norm_num
    have e2 : (((n.natAbs : ℤ)) : ℚ) = |(n : ℚ)| := by
      rw [Int.natCast_natAbs]; push_cast; rfl
    rw [e1, e2]
    exact lt_of_le_of_lt (abs_abs_sub_abs_le_abs_sub _ _) hlt
  unfold formatF1 tenths
  rw [hround]
  simp only [Int.toNat_ofNat, hsign]

theorem time_value_bounds {time : List Char} (hlen : time.length = 4)
    (hd : time.all isDigit = true) :
    digitsValue (time.take 2) ≤ 99 ∧ digitsValue (time.drop 2) ≤ 99 := by
  obtain ⟨a, b, c, d, ht⟩ := length_four hlen
  rw [ht] at hd ⊢
  simp only [List.all_cons, List.all_nil, Bool.and_true, Bool.and_eq_true, isDigit,
    decide_eq_true_eq] at hd
  simp only [List.take, List.drop, digitsValue_two]
  omega

/-- The value of `StartDelay` on a start of four decimal digits. -/
theorem startDelay_value_aux (s : Slot)
    (hs : s.Start.length = 4) (hsd : s.Start.all isDigit = true) :
    StartDelay s = some
        (((digitsValue (s.Start.take 2) : Int) * 60 + (digitsValue (s.Start.drop 2) : Int))
          - 480) := by
  obtain ⟨a, b, c, d, hS⟩ := length_four hs
  rw [hS] at hsd
  simp only [List.all_cons, List.all_nil, Bool.and_true, Bool.and_eq_true] at hsd
  obtain ⟨s1, s2, s3, s4⟩ := Atoi_of_time hsd.1 hsd.2.1 hsd.2.2.1 hsd.2.2.2
  simp only [StartDelay, hS, s1, s2, s3, s4]
  rfl

/-- The inline style of a slot with times of four decimal digits whose
activity is in the map. -/
theorem styles_of_digits (activities : Activities) (s : Slot) (activity : Activity)
    (hs : s.Start.length = 4) (hsd : s.Start.all isDigit = true)
    (he : s.End.length = 4) (hed : s.End.all isDigit = true)
    (hact : activities.lookup s.Activity = some activity) :
    ∃ duration delay, Duration s = some duration ∧ StartDelay s = some delay
      ∧ Styles activities s = some ("height: ".toList ++ tenths duration
          ++ "vh; top: ".toList ++ tenths delay ++ "vh; background-color: ".toList
          ++ activity.Color.Background ++ "; color: ".toList ++ activity.Color.Foreground
          ++ ";".toList) := by
  have hdur := duration_value_aux s hs hsd he hed
  have hdel := startDelay_value_aux s hs hsd
  obtain ⟨b1, b2⟩ := time_value_bounds hs hsd
  obtain ⟨b3, b4⟩ := time_value_bounds he hed
  refine ⟨_, _, hdur, hdel, ?_⟩
  simp only [Styles, hact, hdur, hdel]
  rw [formatF1_tenthOf _ (by omega) (by omega), formatF1_tenthOf _ (by omega) (by omega)]

/-! ## Facts about the safety of the derived values -/

theorem isUpper_ne_hash {c : Char} (h : isUpper c = true) : c ≠ '#' := by
  rintro rfl; revert h; decide

/-- The split at `#` of a colour token of `RuleActivity` has one piece, for a
name, or three pieces, for a pair of hexadecimal values. -/
theorem Split_colorToken {s : List Char} (h : isColorToken s = true) :
    Split s '#' = [s]
      ∨ ∃ b f, s = '#' :: b ++ '#' :: f ∧ Split s '#' = [[], b, f] := by
  unfold isColorToken at h
  rcases Bool.or_eq_true _ _ |>.mp h with h1 | h2
  · simp only [Bool.and_eq_true] at h1
    exact Or.inl (Split_of_not_mem '#' s (not_mem_of_all (fun _ => isUpper_ne_hash) h1.2))
  · right
    split at h2
    · rename_i h0 b1 b2 b3 b4 b5 b6 k f1 f2 f3 f4 f5 f6
      simp only [Bool.and_eq_true, beq_iff_eq] at h2
      obtain ⟨⟨⟨rfl, hb⟩, rfl⟩, hf⟩ := h2
      refine ⟨[b1, b2, b3, b4, b5, b6], [f1, f2, f3, f4, f5, f6], rfl, ?_⟩
      have e : ['#', b1, b2, b3, b4, b5, b6, '#', f1, f2, f3, f4, f5, f6]
          = [] ++ '#' :: ([b1, b2, b3, b4, b5, b6] ++ '#' :: [f1, f2, f3, f4, f5, f6]) := rfl
      rw [e, Split_append_sep '#' [] _ (by simp),
        Split_append_sep '#' _ _ (hash_not_mem_of_hex hb),
        Split_of_not_mem '#' _ (hash_not_mem_of_hex hf)]
    · simp at h2

/-- On a colour token of `RuleActivity` the accesses `hex[1]` and `hex[2]` of
`convertColor` are in range. -/
theorem convertColor_colorToken (toLower : List Char → List Char) {s : List Char}
    (h : isColorToken s = true) : convertColor toLower s ≠ .indexOutOfRange := by
  rcases Split_colorToken h with h1 | ⟨b, f, _, h3⟩
  · simp only [convertColor, h1, List.length_singleton, gt_iff_lt, lt_self_iff_false, if_false]
    split <;> simp
  · simp only [convertColor, h3]
    simp

/-- No iteration of the loop panics. -/
theorem scanLine_ne_panic (toLower : List Char → List Char) (activities : Activities)
    (line : Nat) (text : List Char) : scanLine toLower activities line text ≠ .panic := by
  unfold scanLine
  split
  · split
    · simp
    · split <;> simp
  · split
    · rename_i id colorString name hact
      split
      · simp
      · split
        · simp
        · rename_i hcol
          have htok := ((matchActivity_iff _ _ _ _).mp hact).2.2.2.1
          exact absurd hcol (convertColor_colorToken toLower htok)
        · simp
    · split
      · split
        · simp
        · split <;> simp
      · split
        · simp
        · split <;> simp

theorem scan_ne_panic (toLower : List Char → List Char) (lines : List (List Char)) :
    ∀ (activities : Activities) (line n : Nat),
      scan toLower activities line lines ≠ .panic n := by
  induction lines with
  | nil => intro activities line n; simp [scan]
  | cons text lines ih =>
    intro activities line n
    simp only [scan]
    cases hstep : scanLine toLower activities (line + 1) text with
    | next activities1 => exact ih activities1 (line + 1) n
    | fatal d => simp
    | panic => exact absurd hstep (scanLine_ne_panic toLower activities (line + 1) text)

/-- One accepted line, from line 2 on, keeps the keys of the map distinct. -/
theorem scanLine_nodup (toLower : List Char → List Char) (activities activities1 : Activities)
    (line : Nat) (text : List Char) (hl : line ≠ 1)
    (hnd : (activities.map Prod.fst).Nodup)
    (h : scanLine toLower activities line text = .next activities1) :
    (activities1.map Prod.fst).Nodup := by
  have hkeys := scanLine_keys toLower activities activities1 line text hl h
  rw [hkeys]
  cases hact : matchActivity text with
  | none => rw [declaredIDs_single_none text hact, List.append_nil]; exact hnd
  | some m =>
    obtain ⟨id, colorString, name⟩ := m
    have hd : declaredIDs [text] = [id] := by
      simp [declaredIDs, List.filterMap_cons, hact]
    rw [hd]
    have hfresh : id ∉ activities.map Prod.fst := by
      rw [← lookup_eq_none_iff]
      unfold scanLine at h
      simp only [hl, if_false, hact] at h
      split at h
      · simp at h
      · rename_i hlook; exact hlook
    rw [List.nodup_append]
    refine ⟨hnd, by simp, ?_⟩
    intro a ha hb
    simp only [List.mem_singleton] at hb
    subst hb
    exact hfresh ha

theorem scan_nodup (toLower : List Char → List Char) (lines : List (List Char)) :
    ∀ (activities activities1 : Activities) (line : Nat), 1 ≤ line →
      (activities.map Prod.fst).Nodup →
      scan toLower activities line lines = .processed activities1 →
      (activities1.map Prod.fst).Nodup := by
  induction lines with
  | nil =>
    intro activities activities1 line _ hnd h
    simp only [scan, Outcome.processed.injEq] at h
    subst h; exact hnd
  | cons text lines ih =>
    intro activities activities1 line hl hnd h
    simp only [scan] at h
    cases hstep : scanLine toLower activities (line + 1) text with
    | fatal d => rw [hstep] at h; simp at h
    | panic => rw [hstep] at h; simp at h
    | next activities2 =>
      rw [hstep] at h
      exact ih activities2 activities1 (line + 1) (by omega)
        (scanLine_nodup toLower activities activities2 (line + 1) text (by omega) hnd hstep) h

/-- In a map with distinct keys, every entry is what its key looks up. -/
theorem lookup_of_mem (activities : Activities) (hnd : (activities.map Prod.fst).Nodup)
    (entry : List Char × Activity) (hmem : entry ∈ activities) :
    activities.lookup entry.1 = some entry.2 := by
  induction activities with
  | nil => simp at hmem
  | cons e rest ih =>
    obtain ⟨k, v⟩ := e
    rw [List.map_cons, List.nodup_cons] at hnd
    rw [List.lookup_cons]
    rcases List.mem_cons.mp hmem with rfl | hin
    · simp
    · have hne : entry.1 ≠ k := by
        intro e
        have hk : entry.1 ∈ rest.map Prod.fst := List.mem_map_of_mem Prod.fst hin
        rw [e] at hk
        exact hnd.1 hk
      have hb : (entry.1 == k) = false := beq_eq_false_iff_ne.mpr hne
      simp only [hb]
      exact ih hnd.2 hin

theorem mem_slotRecords {id : List Char} {lines : List (List Char)} {slot : Slot}
    (h : slot ∈ slotRecords id lines) : slot.Activity = id ∧ slot.ID = id := by
  simp only [slotRecords, List.mem_filterMap] at h
  obtain ⟨text, _, hs⟩ := h
  split at hs
  · rename_i g hg
    split at hs
    · rename_i hid
      simp only [Option.map_eq_some'] at hs
      obtain ⟨day, _, rfl⟩ := hs
      exact ⟨hid, hid⟩
    · simp at hs
  · simp at hs

/-- The map of a parsed document has distinct keys, and every activity sits
under its ID with the slot records of its lines. -/
theorem parseInput_agrees (toLower : List Char → List Char) (lines : List (List Char))
    (activities : Activities) (h : parseInput toLower lines = .processed activities) :
    (activities.map Prod.fst).Nodup
      ∧ ∀ entry ∈ activities, entry.2.ID = entry.1
          ∧ ∀ slot ∈ entry.2.Slots, slot.Activity = entry.1 ∧ slot.ID = entry.1 := by
  cases lines with
  | nil =>
    simp only [parseInput, scan, Outcome.processed.injEq] at h
    subst h
    exact ⟨by simp, fun entry hentry => by simp at hentry⟩
  | cons first body =>
    have hfirst := parseInput_processed_header toLower first body activities h
    subst hfirst
    rw [parseInput_header] at h
    have hinit : AgreesWith [] [] := by
      refine ⟨rfl, ?_, ?_⟩
      · intro entry hentry; simp at hentry
      · intro text ht; simp at ht
    obtain ⟨_, h2, _⟩ := scan_agrees toLower body [] [] activities 1 (le_refl 1) hinit h
    refine ⟨scan_nodup toLower body [] activities 1 (le_refl 1) (by simp) h, ?_⟩
    intro entry hentry
    obtain ⟨hid, hslots⟩ := h2 entry hentry
    refine ⟨hid, ?_⟩
    intro slot hslot
    rw [hslots] at hslot
    exact mem_slotRecords hslot

/-! ## The claims -/

/-- C1: in a document whose line 1 is the header and whose lines before line n
are accepted, a line n that matches the slot pattern with an ID that no earlier
line declares makes parsing fail with `UnknownActivity` at line n, whatever the
later lines are (they may declare that ID), and no mapping is produced. -/
theorem parseInput_unknown_activity (toLower : List Char → List Char)
    (pre rest : List (List Char)) (text : List Char) (activities : Activities) (g : SlotGroups)
    (hpre : parseInput toLower (headerLine :: pre) = .processed activities)
    (hslot : matchSlot text = some g)
    (hid : g.id ∉ declaredIDs pre) :
    parseInput toLower (headerLine :: (pre ++ text :: rest))
        = .fatal (pre.length + 2) (.UnknownActivity g.id) activities
      ∧ ∀ mapping, parseInput toLower (headerLine :: (pre ++ text :: rest)) ≠ .processed mapping := by
  have hrun : parseInput toLower (headerLine :: (pre ++ text :: rest))
      = .fatal (pre.length + 2) (.UnknownActivity g.id) activities := by
    rw [parseInput_header] at hpre ⊢
    rw [scan_append, hpre]
    have hkeys := scan_keys toLower pre [] activities 1 (le_refl 1) hpre
    simp only [List.map_nil, List.nil_append] at hkeys
    have hlook : activities.lookup g.id = none := by
      rw [lookup_eq_none_iff, hkeys]; exact hid
    have hne : ¬ 1 + pre.length + 1 = 1 := by omega
    simp only [scan, scanLine, hne, if_false, matchActivity_eq_none_of_matchSlot hslot, hslot,
      hlook]
    have : 1 + pre.length + 1 = pre.length + 2 := by omega
    rw [this]
  exact ⟨hrun, fun mapping hm => by rw [hrun] at hm; exact nomatch hm⟩

/-- C1 at a document of four lines: the slot of line 3 names `M0`, which only
line 4 declares. -/
theorem parseInput_unknown_activity_witness :
    parseInput asciiToLower (headerLine :: [sampleActivityLine])
        = .processed [("M1".toList, sampleActivity)]
      ∧ matchSlot "M0::R 1:MON:0900:1030".toList = some sampleOrphanGroups
      ∧ sampleOrphanGroups.id ∉ declaredIDs [sampleActivityLine]
      ∧ (parseInput asciiToLower (headerLine :: ([sampleActivityLine]
            ++ "M0::R 1:MON:0900:1030".toList :: ["M0@RED@Later".toList]))
          = .fatal ([sampleActivityLine].length + 2) (.UnknownActivity sampleOrphanGroups.id)
              [("M1".toList, sampleActivity)]
        ∧ ∀ mapping, parseInput asciiToLower (headerLine :: ([sampleActivityLine]
            ++ "M0::R 1:MON:0900:1030".toList :: ["M0@RED@Later".toList]))
          ≠ .processed mapping) :=
  ⟨by decide, by decide, by decide,
    parseInput_unknown_activity asciiToLower [sampleActivityLine] ["M0@RED@Later".toList]
      "M0::R 1:MON:0900:1030".toList [("M1".toList, sampleActivity)] sampleOrphanGroups
      (by decide) (by decide) (by decide)⟩

/-- C2: in a document whose line 1 is the header and whose lines before line n
are accepted, a line n that matches the activity pattern with an ID that an
earlier line declares makes parsing fail with `DuplicateActivity` at line n,
whatever the name and the colour token of line n are; the colour is not looked
at, so the failure is never `UnknownColor`. -/
theorem parseInput_duplicate_activity (toLower : List Char → List Char)
    (pre rest : List (List Char)) (text : List Char) (activities : Activities)
    (id colorString name : List Char)
    (hpre : parseInput toLower (headerLine :: pre) = .processed activities)
    (hact : matchActivity text = some (id, colorString, name))
    (hid : id ∈ declaredIDs pre) :
    parseInput toLower (headerLine :: (pre ++ text :: rest))
        = .fatal (pre.length + 2) (.DuplicateActivity id) activities
      ∧ ∀ line token acts, parseInput toLower (headerLine :: (pre ++ text :: rest))
          ≠ .fatal line (.UnknownColor token) acts := by
  have hrun : parseInput toLower (headerLine :: (pre ++ text :: rest))
      = .fatal (pre.length + 2) (.DuplicateActivity id) activities := by
    rw [parseInput_header] at hpre ⊢
    rw [scan_append, hpre]
    have hkeys := scan_keys toLower pre [] activities 1 (le_refl 1) hpre
    simp only [List.map_nil, List.nil_append] at hkeys
    have hlook : activities.lookup id ≠ none := by
      rw [Ne, lookup_eq_none_iff, hkeys]; exact fun h => h hid
    obtain ⟨a, ha⟩ := Option.ne_none_iff_exists'.mp hlook
    have hne : ¬ 1 + pre.length + 1 = 1 := by omega
    simp only [scan, scanLine, hne, if_false, hact, ha]
    have : 1 + pre.length + 1 = pre.length + 2 := by omega
    rw [this]
  refine ⟨hrun, fun line token acts hm => ?_⟩
  rw [hrun] at hm
  simp at hm

/-- C2 at a document of three lines: line 3 declares `M1` again, with a colour
token that is no built-in colour. -/
theorem parseInput_duplicate_activity_witness :
    parseInput asciiToLower (headerLine :: [sampleActivityLine])
        = .processed [("M1".toList, sampleActivity)]
      ∧ matchActivity "M1@PINK@Other".toList
          = some ("M1".toList, "PINK".toList, "Other".toList)
      ∧ "M1".toList ∈ declaredIDs [sampleActivityLine]
      ∧ convertColor asciiToLower "PINK".toList = .notValid
      ∧ (parseInput asciiToLower (headerLine :: ([sampleActivityLine]
            ++ "M1@PINK@Other".toList :: []))
          = .fatal ([sampleActivityLine].length + 2) (.DuplicateActivity "M1".toList)
              [("M1".toList, sampleActivity)]
        ∧ ∀ line token acts, parseInput asciiToLower (headerLine :: ([sampleActivityLine]
            ++ "M1@PINK@Other".toList :: []))
          ≠ .fatal line (.UnknownColor token) acts) :=
  ⟨by decide, by decide, by decide, by decide,
    parseInput_duplicate_activity asciiToLower [sampleActivityLine] []
      "M1@PINK@Other".toList [("M1".toList, sampleActivity)] "M1".toList "PINK".toList
      "Other".toList (by decide) (by decide) (by decide)⟩

/-- C3: in a document of at least one line, a line 1 that is not of the form
`/* ours@X.Y */`, X and Y decimal digits, makes parsing fail with
`UnsupportedSyntax` at line 1, and a line 1 of that form whose version `X.Y`
is not the supported `2.0` makes it fail with `VersionMismatch` at line 1; in
both cases whatever the later lines are, and with no activity registered. -/
theorem parseInput_header_check (toLower : List Char → List Char) (first : List Char)
    (rest : List (List Char)) :
    ((∀ x y, isDigit x = true → isDigit y = true → first ≠ versionHeader x y) →
        parseInput toLower (first :: rest) = .fatal 1 .UnsupportedSyntax [])
      ∧ (∀ x y, isDigit x = true → isDigit y = true → first = versionHeader x y →
          [x, '.', y] ≠ SyntaxVersion →
          parseInput toLower (first :: rest) = .fatal 1 (.VersionMismatch [x, '.', y]) []) := by
  constructor
  · intro hform
    have hnone : matchSyntax first = none := by
      cases hm : matchSyntax first with
      | none => rfl
      | some version =>
        obtain ⟨x, y, hx, hy, hv, ht⟩ := matchSyntax_eq_some hm
        subst hv
        exact absurd ht (hform x y hx hy)
    simp [parseInput, scan, scanLine, hnone]
  · intro x y hx hy hfirst hv
    have hm : matchSyntax first = some [x, '.', y] := by
      rw [hfirst]; exact matchSyntax_of_form x y hx hy
    simp [parseInput, scan, scanLine, hm, hv]

/-- C3 at two documents: one whose line 1 is `ours@2.0` without the comment
marks, one whose line 1 carries the version 1.0. -/
theorem parseInput_header_check_witness :
    (∀ x y, isDigit x = true → isDigit y = true → "ours@2.0".toList ≠ versionHeader x y)
      ∧ parseInput asciiToLower ("ours@2.0".toList :: [sampleActivityLine])
          = .fatal 1 .UnsupportedSyntax []
      ∧ isDigit '1' = true ∧ isDigit '0' = true
      ∧ "/* ours@1.0 */".toList = versionHeader '1' '0'
      ∧ ['1', '.', '0'] ≠ SyntaxVersion
      ∧ parseInput asciiToLower ("/* ours@1.0 */".toList :: [sampleActivityLine])
          = .fatal 1 (.VersionMismatch ['1', '.', '0']) [] :=
  ⟨(fun _ _ _ _ h => by simp [versionHeader] at h),
    (parseInput_header_check asciiToLower "ours@2.0".toList [sampleActivityLine]).1
      (fun _ _ _ _ h => by simp [versionHeader] at h),
    by decide, by decide, by decide, by decide,
    (parseInput_header_check asciiToLower "/* ours@1.0 */".toList [sampleActivityLine]).2
      '1' '0' (by decide) (by decide) (by decide) (by decide)⟩

/-- C4: an input with no line at all has no version header, and yet parsing
does not fail: it reaches `processInput` with an empty mapping. -/
theorem parseInput_no_lines (toLower : List Char → List Char) :
    parseInput toLower [] = .processed [] := rfl

/-- C5, as stated, fails: the line `M1::R 1:MON:0030:0045` matches the slot
pattern with the hour digits `00` for START and for END, `00` is none of the
hour digits 08 to 22, and the slot is stored with a start hour below 8. -/
theorem slot_window_hour_zero :
    matchSlot "M1::R 1:MON:0030:0045".toList
        = some ⟨"M1".toList, [], "R 1".toList, "MON".toList, "0030".toList, "0045".toList⟩
      ∧ "0030".toList.take 2 = "00".toList ∧ hourOf "0030".toList = 0
      ∧ parseInput asciiToLower
          [headerLine, sampleActivityLine, "M1::R 1:MON:0030:0045".toList]
        = .processed [("M1".toList, { sampleActivity with
            Slots := [⟨"M1".toList, "M1".toList, [], "R 1".toList, 0, "0030".toList,
              "0045".toList⟩] })]
      ∧ ¬ (∀ content g, matchSlot content = some g →
            (8 ≤ hourOf g.start ∧ hourOf g.start ≤ 22) ∧ (8 ≤ hourOf g.stop ∧ hourOf g.stop ≤ 23)) := by
  refine ⟨by decide, by decide, by decide, by decide, ?_⟩
  intro hall
  have h := hall "M1::R 1:MON:0030:0045".toList
    ⟨"M1".toList, [], "R 1".toList, "MON".toList, "0030".toList, "0045".toList⟩ (by decide)
  revert h
  decide

/-- C5, amended: for every line that matches the slot pattern, START is four
decimal digits whose hour digits are one of 00, 08, 09, 10 to 19, 20 to 22, END
is four decimal digits whose hour digits are one of 00, 08, 09, 10 to 19, 20 to
23, and the minutes of both are from 0 to 59; hence every slot stored in a
parse result has a start hour that is 0 or from 8 to 22 and an end hour that is
0 or from 8 to 23. -/
theorem slot_time_window :
    (∀ content g, matchSlot content = some g → InStartWindow g.start ∧ InEndWindow g.stop)
      ∧ (∀ toLower lines activities, parseInput toLower lines = .processed activities →
          ∀ entry ∈ activities, ∀ slot ∈ entry.2.Slots,
            InStartWindow slot.Start ∧ InEndWindow slot.End) := by
  have hmatch : ∀ content g, matchSlot content = some g →
      InStartWindow g.start ∧ InEndWindow g.stop := by
    intro content g h
    obtain ⟨_, _, _, _, _, _, _, h7, h8⟩ := matchSlot_eq_some h
    exact ⟨isStartTime_window h7, isEndTime_window h8⟩
  refine ⟨hmatch, ?_⟩
  intro toLower lines activities h
  exact parseInput_slots (fun slot => InStartWindow slot.Start ∧ InEndWindow slot.End)
    (fun content g day hg _ => hmatch content g hg) toLower lines activities h

/-- C5, amended, at the line `M1::R 1:MON:0030:2359` and at the document of
three lines that holds it. -/
theorem slot_time_window_witness :
    matchSlot "M1::R 1:MON:0030:2359".toList
        = some ⟨"M1".toList, [], "R 1".toList, "MON".toList, "0030".toList, "2359".toList⟩
      ∧ (InStartWindow "0030".toList ∧ InEndWindow "2359".toList)
      ∧ parseInput asciiToLower
          [headerLine, sampleActivityLine, "M1::R 1:MON:0030:2359".toList]
        = .processed [("M1".toList, { sampleActivity with
            Slots := [⟨"M1".toList, "M1".toList, [], "R 1".toList, 0, "0030".toList,
              "2359".toList⟩] })]
      ∧ ∀ entry ∈ [("M1".toList, { sampleActivity with
            Slots := [⟨"M1".toList, "M1".toList, [], "R 1".toList, 0, "0030".toList,
              "2359".toList⟩] })], ∀ slot ∈ entry.2.Slots,
            InStartWindow slot.Start ∧ InEndWindow slot.End :=
  ⟨by decide,
    slot_time_window.1 "M1::R 1:MON:0030:2359".toList
      ⟨"M1".toList, [], "R 1".toList, "MON".toList, "0030".toList, "2359".toList⟩ (by decide),
    by decide,
    slot_time_window.2 asciiToLower
      [headerLine, sampleActivityLine, "M1::R 1:MON:0030:2359".toList] _ (by decide)⟩

/-- C6: every day token of the slot pattern is a key of `BuiltInDays` with an
index from 0 to 4; for k from 1 to 5 the code `0k` and the k-th abbreviation
of a weekday both map to k-1 (`01` and `MON` to 0); so the day of a matching
slot line resolves, every slot of a parse result has `Day` at most 4, and no
run ends with `InvalidDay`. -/
theorem day_mapping :
    dayTokens = weekdayNames ++ [dayCode 1, dayCode 2, dayCode 3, dayCode 4, dayCode 5]
      ∧ (∀ d ∈ dayTokens, ∃ i, BuiltInDays.lookup d = some i ∧ i ≤ 4)
      ∧ (∀ k, 1 ≤ k → k ≤ 5 →
          BuiltInDays.lookup (dayCode k) = some (k - 1)
            ∧ (weekdayNames.get? (k - 1)).bind (fun name => BuiltInDays.lookup name)
                = some (k - 1))
      ∧ (BuiltInDays.lookup "01".toList = some 0 ∧ BuiltInDays.lookup "MON".toList = some 0)
      ∧ (∀ content g, matchSlot content = some g →
          ∃ i, BuiltInDays.lookup g.day = some i ∧ i ≤ 4)
      ∧ (∀ toLower lines activities, parseInput toLower lines = .processed activities →
          ∀ entry ∈ activities, ∀ slot ∈ entry.2.Slots, slot.Day ≤ 4)
      ∧ (∀ toLower lines line activities,
          parseInput toLower lines ≠ .fatal line .InvalidDay activities) := by
  refine ⟨by decide, fun d hd => lookup_dayTokens hd, ?_, by decide,
    fun content g h => matchSlot_day h, ?_, ?_⟩
  · intro k h1 h5
    interval_cases k <;> decide
  · intro toLower lines activities h
    refine parseInput_slots (fun slot => slot.Day ≤ 4) ?_ toLower lines activities h
    intro content g day hg hday
    obtain ⟨i, hi, hle⟩ := matchSlot_day hg
    rw [hi] at hday
    simp only [Option.some.injEq] at hday
    subst hday
    exact hle
  · intro toLower lines line activities
    exact scan_ne_invalidDay toLower lines [] activities 0 line

/-- C6 at the token `FRI`, at day 5, at the slot line `M1::R 1:05:0900:1030`
and at the document of three lines that holds it. -/
theorem day_mapping_witness :
    (∃ i, BuiltInDays.lookup "FRI".toList = some i ∧ i ≤ 4)
      ∧ (BuiltInDays.lookup (dayCode 5) = some (5 - 1)
          ∧ (weekdayNames.get? (5 - 1)).bind (fun name => BuiltInDays.lookup name)
              = some (5 - 1))
      ∧ (∃ i, BuiltInDays.lookup "05".toList = some i ∧ i ≤ 4)
      ∧ ∀ entry ∈ [("M1".toList, { sampleActivity with
            Slots := [⟨"M1".toList, "M1".toList, [], "R 1".toList, 4, "0900".toList,
              "1030".toList⟩] })], ∀ slot ∈ entry.2.Slots, slot.Day ≤ 4 :=
  ⟨day_mapping.2.1 "FRI".toList (by decide),
    day_mapping.2.2.1 5 (by decide) (by decide),
    day_mapping.2.2.2.2.1 "M1::R 1:05:0900:1030".toList
      ⟨"M1".toList, [], "R 1".toList, "05".toList, "0900".toList, "1030".toList⟩ (by decide),
    day_mapping.2.2.2.2.2.1 asciiToLower
      [headerLine, sampleActivityLine, "M1::R 1:05:0900:1030".toList] _ (by decide)⟩

/-- C7: for two texts b and f of hexadecimal digits of either letter case, in
particular of six digits each, `convertColor` on `#b#f` returns the colour
named `custom hex color` with background `#b` and foreground `#f`, the digits
as they are written. -/
theorem convertColor_custom_hex (toLower : List Char → List Char) (b f : List Char)
    (hbh : b.all isHex = true) (hfh : f.all isHex = true) :
    convertColor toLower ('#' :: b ++ '#' :: f)
      = .color { Name := "custom hex color".toList, Background := '#' :: b,
                 Foreground := '#' :: f } := by
  have hsplit : Split ('#' :: b ++ '#' :: f) '#' = [[], b, f] := by
    have h1 : Split ([] ++ '#' :: (b ++ '#' :: f)) '#' = [] :: Split (b ++ '#' :: f) '#' :=
      Split_append_sep '#' [] _ (by simp)
    rw [List.nil_append] at h1
    rw [List.cons_append, h1, Split_append_sep '#' b f (hash_not_mem_of_hex hbh),
      Split_of_not_mem '#' f (hash_not_mem_of_hex hfh)]
  simp only [convertColor, hsplit]
  rfl

/-- C7 at the tokens `#1a2b3c#ffffff` and `#1a2B3c#FFffff`. -/
theorem convertColor_custom_hex_witness :
    ("1a2b3c".toList.all isHex = true ∧ "ffffff".toList.all isHex = true
        ∧ convertColor asciiToLower ('#' :: "1a2b3c".toList ++ '#' :: "ffffff".toList)
            = .color { Name := "custom hex color".toList, Background := '#' :: "1a2b3c".toList,
                       Foreground := '#' :: "ffffff".toList })
      ∧ ("1a2B3c".toList.length = 6 ∧ "FFffff".toList.length = 6
        ∧ "1a2B3c".toList.all isHex = true ∧ "FFffff".toList.all isHex = true
        ∧ convertColor asciiToLower ('#' :: "1a2B3c".toList ++ '#' :: "FFffff".toList)
            = .color { Name := "custom hex color".toList, Background := '#' :: "1a2B3c".toList,
                       Foreground := '#' :: "FFffff".toList }) :=
  ⟨⟨by decide, by decide,
      convertColor_custom_hex asciiToLower "1a2b3c".toList "ffffff".toList
        (by decide) (by decide)⟩,
    ⟨by decide, by decide, by decide, by decide,
      convertColor_custom_hex asciiToLower "1a2B3c".toList "FFffff".toList
        (by decide) (by decide)⟩⟩

/-- C8: the table has the nine names green, turquoise, navy, blue, purple,
grey, red, orange, yellow; for a token without `#`, `convertColor` returns the
entry whose name is the lower-cased token when that is one of the nine names,
and the error `color not valid` otherwise; `green`, `GREEN` and `Green` all
give the green entry. -/
theorem convertColor_builtin :
    BuiltInColors.map Prod.fst = colorNames
      ∧ (∀ (toLower : List Char → List Char) (token : List Char), '#' ∉ token →
          ∀ entry ∈ BuiltInColors, toLower token = entry.1 →
            convertColor toLower token = .color entry.2 ∧ entry.2.Name = toLower token)
      ∧ (∀ (toLower : List Char → List Char) (token : List Char), '#' ∉ token →
          toLower token ∉ colorNames → convertColor toLower token = .notValid)
      ∧ (convertColor asciiToLower "green".toList = .color greenColor
          ∧ convertColor asciiToLower "GREEN".toList = .color greenColor
          ∧ convertColor asciiToLower "Green".toList = .color greenColor) := by
  have hnames : BuiltInColors.map Prod.fst = colorNames := by decide
  refine ⟨hnames, ?_, ?_, by decide⟩
  · intro toLower token hno entry hentry hlow
    obtain ⟨hfind, hname⟩ := find_BuiltInColors entry hentry
    refine ⟨?_, by rw [hname, hlow]⟩
    simp only [convertColor, Split_of_not_mem '#' token hno, List.length_singleton,
      gt_iff_lt, lt_self_iff_false, if_false, hlow, hfind]
  · intro toLower token hno hnot
    rw [← hnames] at hnot
    simp only [convertColor, Split_of_not_mem '#' token hno, List.length_singleton,
      gt_iff_lt, lt_self_iff_false, if_false, find_none_of_not_mem _ _ hnot]

/-- C8 at the tokens `YELLOW` and `PINK`. -/
theorem convertColor_builtin_witness :
    '#' ∉ "YELLOW".toList
      ∧ (convertColor asciiToLower "YELLOW".toList
            = .color ⟨"yellow".toList, "#f1c40f".toList, "#303030".toList⟩
          ∧ "yellow".toList = asciiToLower "YELLOW".toList)
      ∧ '#' ∉ "PINK".toList ∧ asciiToLower "PINK".toList ∉ colorNames
      ∧ convertColor asciiToLower "PINK".toList = .notValid :=
  ⟨by decide,
    convertColor_builtin.2.1 asciiToLower "YELLOW".toList (by decide)
      ("yellow".toList, ⟨"yellow".toList, "#f1c40f".toList, "#303030".toList⟩)
      (by decide) (by decide),
    by decide, by decide,
    convertColor_builtin.2.2.1 asciiToLower "PINK".toList (by decide) (by decide)⟩

/-- On a text with exactly one `#` the split has two pieces, the guard
`len(hex) > 1` passes and the read of `hex[2]` is out of range. -/
theorem convertColor_single_hash (toLower : List Char → List Char) (a b : List Char)
    (ha : '#' ∉ a) (hb : '#' ∉ b) :
    convertColor toLower (a ++ '#' :: b) = .indexOutOfRange := by
  simp [convertColor, Split_append_sep '#' a b ha, Split_of_not_mem '#' b hb]

/-- C9, as stated, fails: on the strings `a#b` and `#abcdef`, with a single
`#`, `convertColor` neither returns a colour nor the error `color not valid`,
it reads `hex[2]` out of range.  Neither string is a colour token of
`RuleActivity`. -/
theorem convertColor_single_hash_aborts :
    convertColor asciiToLower "a#b".toList = .indexOutOfRange
      ∧ convertColor asciiToLower "#abcdef".toList = .indexOutOfRange
      ∧ isColorToken "a#b".toList = false ∧ isColorToken "#abcdef".toList = false
      ∧ ¬ (∀ s : List Char, (∃ c, convertColor asciiToLower s = .color c)
            ∨ convertColor asciiToLower s = .notValid) := by
  refine ⟨by decide, by decide, by decide, by decide, ?_⟩
  intro hall
  have hab : convertColor asciiToLower "a#b".toList = .indexOutOfRange := by decide
  rcases hall "a#b".toList with ⟨c, hc⟩ | hn
  · rw [hab] at hc; exact nomatch hc
  · rw [hab] at hn; exact nomatch hn

/-- C9, amended: `convertColor` is total over the colour tokens that reach it.
For every colour token of `RuleActivity`, one or more uppercase letters or `#`
and six hexadecimal digits twice, the split at `#` has one piece or three, so
`hex[1]` and `hex[2]` are in range where they are read, and `convertColor`
returns a colour or the error `color not valid`; the colour group of every
line that matches `RuleActivity` is such a token, and no run of the parser
ends with a panic. -/
theorem convertColor_total_on_tokens (toLower : List Char → List Char) :
    (∀ token, isColorToken token = true →
        ((∃ c, convertColor toLower token = .color c)
            ∨ convertColor toLower token = .notValid)
          ∧ convertColor toLower token ≠ .indexOutOfRange
          ∧ ((Split token '#').length = 1 ∨ (Split token '#').length = 3))
      ∧ (∀ content id colorString name,
          matchActivity content = some (id, colorString, name) →
          isColorToken colorString = true
            ∧ ((∃ c, convertColor toLower colorString = .color c)
              ∨ convertColor toLower colorString = .notValid))
      ∧ (∀ lines n, parseInput toLower lines ≠ .panic n) := by
  have htotal : ∀ token, isColorToken token = true →
      (∃ c, convertColor toLower token = .color c)
        ∨ convertColor toLower token = .notValid := by
    intro token htok
    cases hc : convertColor toLower token with
    | color c => exact Or.inl ⟨c, rfl⟩
    | notValid => exact Or.inr rfl
    | indexOutOfRange => exact absurd hc (convertColor_colorToken toLower htok)
  refine ⟨?_, ?_, ?_⟩
  · intro token htok
    refine ⟨htotal token htok, convertColor_colorToken toLower htok, ?_⟩
    rcases Split_colorToken htok with h1 | ⟨b, f, _, h3⟩
    · left; rw [h1]; rfl
    · right; rw [h3]; rfl
  · intro content id colorString name hact
    have htok := ((matchActivity_iff _ _ _ _).mp hact).2.2.2.1
    exact ⟨htok, htotal colorString htok⟩
  · intro lines n
    exact scan_ne_panic toLower lines [] 0 n

/-- C9, amended, at the colour tokens `GREEN`, `PINK` and `#1a2b3c#ffffff` and
at the activity line `M1@PINK@Other`. -/
theorem convertColor_total_on_tokens_witness :
    (isColorToken "GREEN".toList = true
        ∧ convertColor asciiToLower "GREEN".toList = .color greenColor
        ∧ (((∃ c, convertColor asciiToLower "GREEN".toList = .color c)
              ∨ convertColor asciiToLower "GREEN".toList = .notValid)
            ∧ convertColor asciiToLower "GREEN".toList ≠ .indexOutOfRange
            ∧ ((Split "GREEN".toList '#').length = 1
              ∨ (Split "GREEN".toList '#').length = 3)))
      ∧ (isColorToken "#1a2b3c#ffffff".toList = true
        ∧ (Split "#1a2b3c#ffffff".toList '#').length = 3
        ∧ (((∃ c, convertColor asciiToLower "#1a2b3c#ffffff".toList = .color c)
              ∨ convertColor asciiToLower "#1a2b3c#ffffff".toList = .notValid)
            ∧ convertColor asciiToLower "#1a2b3c#ffffff".toList ≠ .indexOutOfRange
            ∧ ((Split "#1a2b3c#ffffff".toList '#').length = 1
              ∨ (Split "#1a2b3c#ffffff".toList '#').length = 3)))
      ∧ (matchActivity "M1@PINK@Other".toList
            = some ("M1".toList, "PINK".toList, "Other".toList)
        ∧ convertColor asciiToLower "PINK".toList = .notValid
        ∧ (isColorToken "PINK".toList = true
          ∧ ((∃ c, convertColor asciiToLower "PINK".toList = .color c)
            ∨ convertColor asciiToLower "PINK".toList = .notValid))) :=
  ⟨⟨by decide, by decide,
      (convertColor_total_on_tokens asciiToLower).1 "GREEN".toList (by decide)⟩,
    ⟨by decide, by decide,
      (convertColor_total_on_tokens asciiToLower).1 "#1a2b3c#ffffff".toList (by decide)⟩,
    ⟨by decide, by decide,
      (convertColor_total_on_tokens asciiToLower).2.1 "M1@PINK@Other".toList "M1".toList
        "PINK".toList "Other".toList (by decide)⟩⟩

/-- C10: in the mapping of a successfully parsed document every activity sits
under its own ID, and its `Slots` are exactly the slot records of the slot
lines that carry this ID, in the order of those lines: one record for each
line, with the icon, location, day index, start and end of that line. -/
theorem slots_insertion_order (toLower : List Char → List Char) (lines : List (List Char))
    (activities : Activities) (h : parseInput toLower lines = .processed activities) :
    ∀ entry ∈ activities,
      entry.2.ID = entry.1 ∧ entry.2.Slots = slotRecords entry.1 lines := by
  cases lines with
  | nil =>
    simp only [parseInput, scan, Outcome.processed.injEq] at h
    subst h
    intro entry hentry
    exact nomatch hentry
  | cons first body =>
    have hfirst := parseInput_processed_header toLower first body activities h
    subst hfirst
    rw [parseInput_header] at h
    have hinit : AgreesWith [] [] := by
      refine ⟨rfl, ?_, ?_⟩
      · intro entry hentry; simp at hentry
      · intro text ht; simp at ht
    obtain ⟨_, h2, _⟩ := scan_agrees toLower body [] [] activities 1 (le_refl 1) hinit h
    rw [List.nil_append] at h2
    intro entry hentry
    have hhead : slotRecords entry.1 (headerLine :: body) = slotRecords entry.1 body := by
      have := slotRecords_append entry.1 [headerLine] body
      rw [List.singleton_append] at this
      rw [this, slotRecords_single_none entry.1 headerLine (by decide), List.nil_append]
    rw [hhead]
    exact h2 entry hentry

/-- C10 at `sampleDocument`: the two slots of `M1` are kept in the order of
their lines, around the slot of `M2`. -/
theorem slots_insertion_order_witness :
    parseInput asciiToLower sampleDocument = .processed sampleMapping
      ∧ slotRecords "M1".toList sampleDocument
          = [ ⟨"M1".toList, "M1".toList, [], "R 1".toList, 0, "0900".toList, "1030".toList⟩,
              ⟨"M1".toList, "M1".toList, "book".toList, "R 2".toList, 2, "1400".toList,
                "1500".toList⟩ ]
      ∧ ∀ entry ∈ sampleMapping,
          entry.2.ID = entry.1 ∧ entry.2.Slots = slotRecords entry.1 sampleDocument :=
  ⟨by decide, by decide,
    slots_insertion_order asciiToLower sampleDocument sampleMapping (by decide)⟩

/-- C13: for a slot whose `Start` is four characters `HHMM` of one byte each,
`StartPrintable` returns the five characters made of the first two, a colon
and the last two, and taking the colon out gives `Start` back; the same for
`End` and `EndPrintable`; `0930` gives `09:30`. -/
theorem printable_times (s : Slot) :
    (s.Start.length = 4 → (∀ c ∈ s.Start, c.toNat < 128) →
        StartPrintable s = some (s.Start.take 2 ++ ':' :: s.Start.drop 2)
          ∧ (s.Start.take 2 ++ ':' :: s.Start.drop 2).length = 5
          ∧ (s.Start.take 2 ++ ':' :: s.Start.drop 2).eraseIdx 2 = s.Start)
      ∧ (s.End.length = 4 → (∀ c ∈ s.End, c.toNat < 128) →
        EndPrintable s = some (s.End.take 2 ++ ':' :: s.End.drop 2)
          ∧ (s.End.take 2 ++ ':' :: s.End.drop 2).length = 5
          ∧ (s.End.take 2 ++ ':' :: s.End.drop 2).eraseIdx 2 = s.End)
      ∧ StartPrintable (slotAt "0930".toList "1030".toList) = some "09:30".toList
      ∧ EndPrintable (slotAt "0930".toList "1030".toList) = some "10:30".toList := by
  refine ⟨?_, ?_, by decide, by decide⟩
  · intro hlen hascii
    obtain ⟨a, b, c, d, hs⟩ := length_four hlen
    rw [hs] at hascii
    obtain ⟨h1, h2⟩ := slice_four (hascii a (by simp)) (hascii b (by simp))
      (hascii c (by simp)) (hascii d (by simp))
    simp [StartPrintable, hs, h1, h2]
  · intro hlen hascii
    obtain ⟨a, b, c, d, hs⟩ := length_four hlen
    rw [hs] at hascii
    obtain ⟨h1, h2⟩ := slice_four (hascii a (by simp)) (hascii b (by simp))
      (hascii c (by simp)) (hascii d (by simp))
    simp [EndPrintable, hs, h1, h2]

/-- C13 at the slot from 14:05 to 15:50. -/
theorem printable_times_witness :
    ("1405".toList.length = 4 ∧ (∀ c ∈ "1405".toList, c.toNat < 128)
        ∧ StartPrintable (slotAt "1405".toList "1550".toList) = some "14:05".toList
        ∧ "14:05".toList.eraseIdx 2 = "1405".toList)
      ∧ ("1550".toList.length = 4 ∧ (∀ c ∈ "1550".toList, c.toNat < 128)
        ∧ EndPrintable (slotAt "1405".toList "1550".toList) = some "15:50".toList
        ∧ "15:50".toList.eraseIdx 2 = "1550".toList) :=
  ⟨⟨by decide, by decide,
      ((printable_times (slotAt "1405".toList "1550".toList)).1 (by decide) (by decide)).1,
      ((printable_times (slotAt "1405".toList "1550".toList)).1 (by decide) (by decide)).2.2⟩,
    ⟨by decide, by decide,
      ((printable_times (slotAt "1405".toList "1550".toList)).2.1 (by decide) (by decide)).1,
      ((printable_times (slotAt "1405".toList "1550".toList)).2.1 (by decide)
        (by decide)).2.2⟩⟩

/-- C14: for a slot whose `Start` and `End` are four decimal digits each,
`Duration` returns `(endHour*60 + endMinute) - (startHour*60 + startMinute)`,
the hour being the number that the first two digits write and the minute the
number that the last two write; `0900` and `1030` give 90. -/
theorem duration_value (s : Slot)
    (hs : s.Start.length = 4) (hsd : s.Start.all isDigit = true)
    (he : s.End.length = 4) (hed : s.End.all isDigit = true) :
    Duration s = some
        (((digitsValue (s.End.take 2) : Int) * 60 + (digitsValue (s.End.drop 2) : Int))
          - ((digitsValue (s.Start.take 2) : Int) * 60 + (digitsValue (s.Start.drop 2) : Int)))
      ∧ Duration (slotAt "0900".toList "1030".toList) = some 90 := by
  exact ⟨duration_value_aux s hs hsd he hed, by decide⟩

/-- C14 at the slot from 09:45 to 11:15. -/
theorem duration_value_witness :
    "0945".toList.length = 4 ∧ "0945".toList.all isDigit = true
      ∧ "1115".toList.length = 4 ∧ "1115".toList.all isDigit = true
      ∧ Duration (slotAt "0945".toList "1115".toList) = some
          (((digitsValue ("1115".toList.take 2) : Int) * 60
              + (digitsValue ("1115".toList.drop 2) : Int))
            - ((digitsValue ("0945".toList.take 2) : Int) * 60
              + (digitsValue ("0945".toList.drop 2) : Int)))
      ∧ (((digitsValue ("1115".toList.take 2) : Int) * 60
              + (digitsValue ("1115".toList.drop 2) : Int))
            - ((digitsValue ("0945".toList.take 2) : Int) * 60
              + (digitsValue ("0945".toList.drop 2) : Int))) = 90 :=
  ⟨by decide, by decide, by decide, by decide,
    (duration_value (slotAt "0945".toList "1115".toList) (by decide) (by decide) (by decide)
      (by decide)).1,
    by decide⟩

/-- C15, as stated, fails: `0760` is four decimal digits, it is not `0800`,
and `StartDelay` is 0 for it, since 7*60 + 60 = 480. -/
theorem startDelay_zero_at_0760 :
    "0760".toList.length = 4 ∧ "0760".toList.all isDigit = true
      ∧ StartDelay (slotAt "0760".toList "0900".toList) = some 0
      ∧ "0760".toList ≠ "0800".toList
      ∧ ¬ (∀ s : Slot, s.Start.length = 4 → s.Start.all isDigit = true →
            (StartDelay s = some 0 ↔ s.Start = "0800".toList)) := by
  refine ⟨by decide, by decide, by decide, by decide, ?_⟩
  intro hall
  have h := (hall (slotAt "0760".toList "0900".toList) (by decide) (by decide)).mp (by decide)
  revert h
  decide

/-- C15, amended: for a slot whose `Start` is four decimal digits, `StartDelay`
returns `(startHour*60 + startMinute) - 480`; when the minute digits write a
number of at most 59, as in every `Start` that the slot pattern accepts, it is
0 exactly when `Start` is `0800`; and when `End` is four decimal digits too,
`StartDelay` plus `Duration` is the offset of the end from 08:00. -/
theorem startDelay_value (s : Slot)
    (hs : s.Start.length = 4) (hsd : s.Start.all isDigit = true) :
    StartDelay s = some
        (((digitsValue (s.Start.take 2) : Int) * 60 + (digitsValue (s.Start.drop 2) : Int))
          - 480)
      ∧ (digitsValue (s.Start.drop 2) ≤ 59 →
          (StartDelay s = some 0 ↔ s.Start = "0800".toList))
      ∧ (s.End.length = 4 → s.End.all isDigit = true →
          ∃ delay duration, StartDelay s = some delay ∧ Duration s = some duration
            ∧ delay + duration
                = ((digitsValue (s.End.take 2) : Int) * 60 + (digitsValue (s.End.drop 2) : Int))
                    - 480)
      ∧ StartDelay (slotAt "0800".toList "0900".toList) = some 0 := by
  obtain ⟨a, b, c, d, hS⟩ := length_four hs
  have hsd0 := hsd
  rw [hS] at hsd
  simp only [List.all_cons, List.all_nil, Bool.and_true, Bool.and_eq_true] at hsd
  obtain ⟨ha, hb, hc, hd⟩ := hsd
  obtain ⟨s1, s2, s3, s4⟩ := Atoi_of_time ha hb hc hd
  have hval : StartDelay s = some
      (((digitsValue (s.Start.take 2) : Int) * 60 + (digitsValue (s.Start.drop 2) : Int))
        - 480) := by
    simp only [StartDelay, hS, s1, s2, s3, s4]
    rfl
  refine ⟨hval, ?_, ?_, by decide⟩
  · intro hmin
    constructor
    · intro hzero
      rw [hval, hS] at hzero
      rw [hS] at hmin
      simp only [List.take, List.drop, digitsValue_two, Option.some.injEq] at hzero hmin
      simp only [isDigit, decide_eq_true_eq] at ha hb hc hd
      have e1 : a.toNat = 48 := by omega
      have e2 : b.toNat = 56 := by omega
      have e3 : c.toNat = 48 := by omega
      have e4 : d.toNat = 48 := by omega
      rw [hS, char_eq_of_toNat e1, char_eq_of_toNat e2, char_eq_of_toNat e3,
        char_eq_of_toNat e4]
      rfl
    · intro h0800
      simp only [StartDelay, h0800]
      decide
  · intro he hed
    have hdur := (duration_value_aux s hs hsd0 he hed)
    exact ⟨_, _, hval, hdur, by ring⟩

/-- C15, amended, at the slot from 09:30 to 11:00: the delay is 90 minutes, it
is not 0, and with the duration of 90 minutes it gives the 180 minutes from
08:00 to the end. -/
theorem startDelay_value_witness :
    "0930".toList.length = 4 ∧ "0930".toList.all isDigit = true
      ∧ StartDelay (slotAt "0930".toList "1100".toList) = some
          (((digitsValue ("0930".toList.take 2) : Int) * 60
              + (digitsValue ("0930".toList.drop 2) : Int)) - 480)
      ∧ (((digitsValue ("0930".toList.take 2) : Int) * 60
              + (digitsValue ("0930".toList.drop 2) : Int)) - 480 = 90)
      ∧ digitsValue ("0930".toList.drop 2) ≤ 59
      ∧ (StartDelay (slotAt "0930".toList "1100".toList) = some 0
          ↔ "0930".toList = "0800".toList)
      ∧ "1100".toList.length = 4 ∧ "1100".toList.all isDigit = true
      ∧ (∃ delay duration, StartDelay (slotAt "0930".toList "1100".toList) = some delay
          ∧ Duration (slotAt "0930".toList "1100".toList) = some duration
          ∧ delay + duration
              = ((digitsValue ("1100".toList.take 2) : Int) * 60
                  + (digitsValue ("1100".toList.drop 2) : Int)) - 480) :=
  ⟨by decide, by decide,
    (startDelay_value (slotAt "0930".toList "1100".toList) (by decide) (by decide)).1,
    by decide, by decide,
    (startDelay_value (slotAt "0930".toList "1100".toList) (by decide) (by decide)).2.1
      (by decide),
    by decide, by decide,
    (startDelay_value (slotAt "0930".toList "1100".toList) (by decide) (by decide)).2.2.1
      (by decide) (by decide)⟩

/-- C17: the parser does not compare END with START.  Whatever START and END
the slot pattern accepts one by one, in any order of time, the line with both
is accepted; the document with the slot from 10:00 to 10:00 is parsed and the
stored slot has `Duration` 0; the document with the slot from 10:00 to 09:00
is parsed and the stored slot has `Duration` -60. -/
theorem end_before_start_accepted :
    (∀ start stop, isStartTime start = true → isEndTime stop = true →
        matchSlot ("M1::R 1:MON:".toList ++ start ++ ':' :: stop)
          = some ⟨"M1".toList, [], "R 1".toList, "MON".toList, start, stop⟩)
      ∧ (∃ lines activities entry slot,
          parseInput asciiToLower lines = .processed activities ∧ entry ∈ activities
            ∧ slot ∈ entry.2.Slots ∧ Duration slot = some 0)
      ∧ (∃ lines activities entry slot duration,
          parseInput asciiToLower lines = .processed activities ∧ entry ∈ activities
            ∧ slot ∈ entry.2.Slots ∧ Duration slot = some duration ∧ duration < 0)
      ∧ (parseInput asciiToLower
            [headerLine, sampleActivityLine, "M1::R 1:MON:1000:0900".toList]
          = .processed [("M1".toList, { sampleActivity with
              Slots := [slotAt "1000".toList "0900".toList] })]
        ∧ Duration (slotAt "1000".toList "0900".toList) = some (-60)) := by
  refine ⟨?_, ?_, ?_, by decide, by decide⟩
  · intro start stop hstart hstop
    rw [matchSlot_iff]
    have h1 : "M1".toList ≠ [] := by decide
    have h2 : "M1".toList.all isIDChar = true := by decide
    have h3 : ([] : List Char).all isIconChar = true := by decide
    have h4 : "R 1".toList ≠ [] := by decide
    have h5 : "R 1".toList.all isLocationChar = true := by decide
    have h6 : "MON".toList ∈ dayTokens := by decide
    refine ⟨?_, h1, h2, h3, h4, h5, h6, hstart, hstop⟩
    simp
  · exact ⟨[headerLine, sampleActivityLine, "M1::R 1:MON:1000:1000".toList],
      [("M1".toList, { sampleActivity with Slots := [slotAt "1000".toList "1000".toList] })],
      ("M1".toList, { sampleActivity with Slots := [slotAt "1000".toList "1000".toList] }),
      slotAt "1000".toList "1000".toList, by decide, by simp, by simp, by decide⟩
  · exact ⟨[headerLine, sampleActivityLine, "M1::R 1:MON:1000:0900".toList],
      [("M1".toList, { sampleActivity with Slots := [slotAt "1000".toList "0900".toList] })],
      ("M1".toList, { sampleActivity with Slots := [slotAt "1000".toList "0900".toList] }),
      slotAt "1000".toList "0900".toList, -60, by decide, by simp, by simp, by decide,
      by decide⟩

/-- C17 at START 22:59 and END 00:00. -/
theorem end_before_start_accepted_witness :
    isStartTime "2259".toList = true ∧ isEndTime "0000".toList = true
      ∧ matchSlot ("M1::R 1:MON:".toList ++ "2259".toList ++ ':' :: "0000".toList)
          = some ⟨"M1".toList, [], "R 1".toList, "MON".toList, "2259".toList, "0000".toList⟩ :=
  ⟨by decide, by decide,
    end_before_start_accepted.1 "2259".toList "0000".toList (by decide) (by decide)⟩

/-- C11, as stated, fails: the line made of the single character `#` is not
skipped.  The document with that line 2 fails with `InvalidSyntax` at line 2,
the document with a blank line 2 is parsed. -/
theorem lone_hash_rejected :
    matchComment ['#'] = false
      ∧ parseInput asciiToLower [headerLine, ['#']] = .fatal 2 .InvalidSyntax []
      ∧ parseInput asciiToLower [headerLine, []] = .processed []
      ∧ parseInput asciiToLower [headerLine, ['#']] ≠ parseInput asciiToLower [headerLine, []] := by
  decide

/-- C11, amended: a line after line 1 that begins with `#` and has at least
one more character (none of them a line feed, as in every line that the
scanner yields) is skipped without error: the outcome, mapping or failure, is
the outcome of the document with a blank line in its place. -/
theorem comment_line_skipped (toLower : List Char → List Char) (first : List Char)
    (pre rest : List (List Char)) (tail : List Char)
    (htail : tail ≠ []) (hnl : '\n' ∉ tail) :
    parseInput toLower (first :: (pre ++ ('#' :: tail) :: rest))
      = parseInput toLower (first :: (pre ++ [] :: rest)) := by
  apply parseInput_congr_line
  intro activities line hl
  rw [scanLine_comment toLower activities line tail hl htail hnl,
    scanLine_blank toLower activities line hl]

/-- C11, amended, at a document with the comment `# studio @ 2:3` on line 3,
before a slot line. -/
theorem comment_line_skipped_witness :
    " studio @ 2:3".toList ≠ [] ∧ '\n' ∉ " studio @ 2:3".toList
      ∧ parseInput asciiToLower (headerLine :: ([sampleActivityLine]
            ++ ('#' :: " studio @ 2:3".toList) :: ["M1::R 1:MON:0900:1030".toList]))
          = parseInput asciiToLower (headerLine :: ([sampleActivityLine]
            ++ [] :: ["M1::R 1:MON:0900:1030".toList]))
      ∧ parseInput asciiToLower (headerLine :: ([sampleActivityLine]
            ++ [] :: ["M1::R 1:MON:0900:1030".toList]))
          = .processed [("M1".toList, { sampleActivity with
              Slots := [slotAt "0900".toList "1030".toList] })] :=
  ⟨by decide, by decide,
    comment_line_skipped asciiToLower headerLine [sampleActivityLine]
      ["M1::R 1:MON:0900:1030".toList] " studio @ 2:3".toList (by decide) (by decide),
    by decide⟩

/-- C12: in a document whose line 1 is the header and whose lines before line n
are accepted, a line n that is not empty and matches none of the activity, slot
and comment patterns makes parsing fail with `InvalidSyntax`, and the line
number reported is n; conversely a run that ends with `InvalidSyntax` at n has
a line n, with n at least 2, which is not blank and matches none of the three
patterns.  A line that does not begin with `#` does not match the comment
pattern, so the first part holds for every such line. -/
theorem invalid_syntax_line (toLower : List Char → List Char) :
    (∀ (pre rest : List (List Char)) (text : List Char) (activities : Activities),
        parseInput toLower (headerLine :: pre) = .processed activities →
        text ≠ [] → matchActivity text = none → matchSlot text = none →
        matchComment text = false →
        parseInput toLower (headerLine :: (pre ++ text :: rest))
          = .fatal (pre.length + 2) .InvalidSyntax activities)
      ∧ (∀ (lines : List (List Char)) (n : Nat) (activities : Activities),
        parseInput toLower lines = .fatal n .InvalidSyntax activities →
        ∃ text, 2 ≤ n ∧ lines.get? (n - 1) = some text ∧ text ≠ []
          ∧ matchActivity text = none ∧ matchSlot text = none
          ∧ matchComment text = false)
      ∧ (∀ text : List Char, text.head? ≠ some '#' → matchComment text = false) := by
  refine ⟨?_, ?_, ?_⟩
  rotate_left 2
  · intro text hhead
    cases text with
    | nil => rfl
    | cons c rest =>
      have hc : c ≠ '#' := fun e => hhead (by rw [e]; rfl)
      simp [matchComment, hc]
  · intro pre rest text activities hpre ht ha hs hc
    rw [parseInput_header] at hpre ⊢
    rw [scan_append, hpre]
    have hne : ¬ 1 + pre.length + 1 = 1 := by omega
    simp only [scan, scanLine, hne, if_false, ha, hs, hc, ht, Bool.false_eq_true]
    have : 1 + pre.length + 1 = pre.length + 2 := by omega
    rw [this]
  · intro lines n activities h
    obtain ⟨pre, text, rest, hl, hn, _, hfat⟩ :=
      scan_fatal_inv toLower lines [] activities 0 n .InvalidSyntax h
    obtain ⟨h1, ht, ha, hs, hc⟩ := scanLine_invalidSyntax toLower activities n text hfat
    refine ⟨text, by omega, ?_, ht, ha, hs, hc⟩
    have hidx : n - 1 = pre.length := by omega
    rw [hl, hidx]
    exact get?_append_length pre rest text

/-- C12 at a document whose line 4 is `M1;;R 1`, after an activity line and a
blank line. -/
theorem invalid_syntax_line_witness :
    parseInput asciiToLower (headerLine :: [sampleActivityLine, []])
        = .processed [("M1".toList, sampleActivity)]
      ∧ "M1;;R 1".toList ≠ [] ∧ matchActivity "M1;;R 1".toList = none
      ∧ matchSlot "M1;;R 1".toList = none ∧ matchComment "M1;;R 1".toList = false
      ∧ parseInput asciiToLower (headerLine :: ([sampleActivityLine, []]
            ++ "M1;;R 1".toList :: ["M1::R 1:MON:0900:1030".toList]))
          = .fatal ([sampleActivityLine, []].length + 2) .InvalidSyntax
              [("M1".toList, sampleActivity)]
      ∧ (∃ text, 2 ≤ 4
          ∧ [headerLine, sampleActivityLine, [], "M1;;R 1".toList].get? (4 - 1) = some text
          ∧ text ≠ [] ∧ matchActivity text = none ∧ matchSlot text = none
          ∧ matchComment text = false)
      ∧ "M1;;R 1".toList.head? ≠ some '#' :=
  ⟨by decide, by decide, by decide, by decide,
    (invalid_syntax_line asciiToLower).2.2 "M1;;R 1".toList (by decide),
    (invalid_syntax_line asciiToLower).1 [sampleActivityLine, []]
      ["M1::R 1:MON:0900:1030".toList] "M1;;R 1".toList [("M1".toList, sampleActivity)]
      (by decide) (by decide) (by decide) (by decide) (by decide),
    (invalid_syntax_line asciiToLower).2.1
      [headerLine, sampleActivityLine, [], "M1;;R 1".toList] 4
      [("M1".toList, sampleActivity)] (by decide),
    by decide⟩

/-- C16: a document of three lines, the header, an activity line with a colour
that resolves and a slot line with the same ID, is parsed without error into a
mapping of exactly one activity with exactly one slot; and the grouping by day
of `processInput` writes the rendering of that slot into the bucket of the
day of the slot and leaves the four other buckets empty. -/
theorem minimal_document (toLower : List Char → List Char)
    (activityLine slotLine id colorString name : List Char) (color : Color) (g : SlotGroups)
    (hact : matchActivity activityLine = some (id, colorString, name))
    (hcolor : convertColor toLower colorString = .color color)
    (hslot : matchSlot slotLine = some g) (hid : g.id = id) :
    ∃ day, BuiltInDays.lookup g.day = some day ∧ day ≤ 4
      ∧ parseInput toLower [headerLine, activityLine, slotLine]
          = .processed [(id, { ID := id, Name := name, Color := color,
                               Slots := [slotOfGroups g day] })]
      ∧ ∀ (render : Slot → Option (List Char)) (text : List Char),
          render (slotOfGroups g day) = some text →
          ∃ buckets,
            dayBuckets render [(id, { ID := id, Name := name, Color := color,
                                      Slots := [slotOfGroups g day] })] = .days buckets
              ∧ buckets.length = 5 ∧ buckets.get? day = some text
              ∧ ∀ i, i < 5 → i ≠ day → buckets.get? i = some [] := by
  obtain ⟨day, hday, hle⟩ := matchSlot_day hslot
  refine ⟨day, hday, hle, ?_, ?_⟩
  · rw [parseInput_header]
    have hnoact := matchActivity_eq_none_of_matchSlot hslot
    have h2 : scanLine toLower [] (1 + 1) activityLine
        = .next [(id, { ID := id, Name := name, Color := color, Slots := [] })] := by
      simp only [scanLine, Nat.reduceAdd, OfNat.ofNat_ne_one, if_false, hact, List.lookup_nil,
        hcolor, List.nil_append]
    have hlook : List.lookup g.id
        [(id, ({ ID := id, Name := name, Color := color, Slots := [] } : Activity))]
        = some { ID := id, Name := name, Color := color, Slots := [] } := by
      rw [List.lookup_cons, hid]
      simp
    have h3 : scanLine toLower
        [(id, { ID := id, Name := name, Color := color, Slots := [] })] (1 + 1 + 1) slotLine
        = .next [(id, { ID := id, Name := name, Color := color,
                        Slots := [slotOfGroups g day] })] := by
      simp only [scanLine, Nat.reduceAdd, OfNat.ofNat_ne_one, if_false, hnoact, hslot, hlook,
        hday]
      simp [appendSlot, hid]
    simp only [scan, h2, h3]
  · intro render text hrender
    have hlt : day < 5 := by omega
    have hd : (slotOfGroups g day).Day = day := rfl
    refine ⟨writeDay (List.replicate 5 []) day text, ?_, ?_, ?_, ?_⟩
    · simp only [dayBuckets, renderActivities, renderSlots, hrender, hd, List.length_replicate,
        hlt, if_true]
    · rw [writeDay_length]; simp
    · interval_cases day <;> rfl
    · intro i hi hne
      interval_cases day <;> interval_cases i <;> first | rfl | exact absurd rfl hne

/-- C16 at the document `/* ours@2.0 */`, `M1@GREEN@Math`,
`M1:book:R 2:03:1400:1500`: the slot goes to the bucket of Wednesday. -/
theorem minimal_document_witness :
    matchActivity sampleActivityLine = some ("M1".toList, "GREEN".toList, "Math".toList)
      ∧ convertColor asciiToLower "GREEN".toList = .color greenColor
      ∧ matchSlot "M1:book:R 2:03:1400:1500".toList
          = some ⟨"M1".toList, "book".toList, "R 2".toList, "03".toList, "1400".toList,
              "1500".toList⟩
      ∧ BuiltInDays.lookup "03".toList = some 2
      ∧ sampleRender ⟨"M1".toList, "M1".toList, "book".toList, "R 2".toList, 2, "1400".toList,
          "1500".toList⟩ = some "[R 2]".toList
      ∧ dayBuckets sampleRender [("M1".toList, { sampleActivity with
          Slots := [⟨"M1".toList, "M1".toList, "book".toList, "R 2".toList, 2, "1400".toList,
            "1500".toList⟩] })] = .days [[], [], "[R 2]".toList, [], []]
      ∧ ∃ day, BuiltInDays.lookup (SlotGroups.mk "M1".toList "book".toList "R 2".toList
            "03".toList "1400".toList "1500".toList).day = some day ∧ day ≤ 4
        ∧ parseInput asciiToLower
            [headerLine, sampleActivityLine, "M1:book:R 2:03:1400:1500".toList]
          = .processed [("M1".toList,
              { ID := "M1".toList, Name := "Math".toList, Color := greenColor,
                Slots := [slotOfGroups ⟨"M1".toList, "book".toList, "R 2".toList, "03".toList,
                  "1400".toList, "1500".toList⟩ day] })]
        ∧ ∀ (render : Slot → Option (List Char)) (text : List Char),
            render (slotOfGroups ⟨"M1".toList, "book".toList, "R 2".toList, "03".toList,
                "1400".toList, "1500".toList⟩ day) = some text →
            ∃ buckets,
              dayBuckets render [("M1".toList,
                  { ID := "M1".toList, Name := "Math".toList, Color := greenColor,
                    Slots := [slotOfGroups ⟨"M1".toList, "book".toList, "R 2".toList,
                      "03".toList, "1400".toList, "1500".toList⟩ day] })] = .days buckets
                ∧ buckets.length = 5 ∧ buckets.get? day = some text
                ∧ ∀ i, i < 5 → i ≠ day → buckets.get? i = some [] :=
  ⟨by decide, by decide, by decide, by decide, by decide, by decide,
    minimal_document asciiToLower sampleActivityLine "M1:book:R 2:03:1400:1500".toList
      "M1".toList "GREEN".toList "Math".toList greenColor
      ⟨"M1".toList, "book".toList, "R 2".toList, "03".toList, "1400".toList, "1500".toList⟩
      (by decide) (by decide) (by decide) (by decide)⟩

/-- C20, as stated, fails: the document with the activities `M1` and `M2`, both
with a slot on Monday, gives `mondayMapping`; enumerated in the order `M1`,
`M2` the bucket of Monday is `[R 1][R 2]`, enumerated in the order `M2`, `M1`
it is `[R 2][R 1]`. -/
theorem monday_bucket_depends_on_order :
    parseInput asciiToLower
        [headerLine, sampleActivityLine, "M2@RED@Art".toList,
          "M1::R 1:MON:0900:1030".toList, "M2::R 2:MON:1100:1200".toList]
      = .processed mondayMapping
      ∧ mondayMapping.reverse.Perm mondayMapping
      ∧ dayBuckets sampleRender mondayMapping
          = .days ["[R 1][R 2]".toList, [], [], [], []]
      ∧ dayBuckets sampleRender mondayMapping.reverse
          = .days ["[R 2][R 1]".toList, [], [], [], []]
      ∧ dayBuckets sampleRender mondayMapping
          ≠ dayBuckets sampleRender mondayMapping.reverse :=
  ⟨by decide, List.reverse_perm _, by decide, by decide, by decide⟩

/-- C20, amended: when the loop of `processInput` fills the buckets for one
order of enumeration of the mapping, it fills them for every other order, and
each of the five buckets is the concatenation of the renderings of the slots
of its day in the order the loop meets them: the same renderings in both
orders, up to the order of the pieces that come from different activities.
The buckets are the same in both orders when no two activities have a slot on
the same day. -/
theorem day_buckets_order (render : Slot → Option (List Char))
    (order1 order2 : List (List Char × Activity)) (hperm : order1.Perm order2)
    (buckets1 : List (List Char)) (h1 : dayBuckets render order1 = .days buckets1) :
    ∃ buckets2, dayBuckets render order2 = .days buckets2
      ∧ (∀ day, day < 5 →
          buckets1.get? day = some (dayPieces render day order1).flatten
            ∧ buckets2.get? day = some (dayPieces render day order2).flatten
            ∧ (dayPieces render day order1).Perm (dayPieces render day order2))
      ∧ ((∀ entry1 ∈ order1, ∀ entry2 ∈ order1, ∀ slot1 ∈ entry1.2.Slots,
            ∀ slot2 ∈ entry2.2.Slots, slot1.Day = slot2.Day → entry1 = entry2) →
          buckets2 = buckets1) := by
  simp only [dayBuckets, renderActivities_eq] at h1 ⊢
  obtain ⟨hlen1, hok1, hget1⟩ := renderSlots_days render _ _ _ h1
  have hmem : ∀ slot, slot ∈ order2.flatMap (fun entry => entry.2.Slots) ↔
      slot ∈ order1.flatMap (fun entry => entry.2.Slots) :=
    fun slot => (hperm.flatMap_right _).symm.mem_iff
  obtain ⟨buckets2, h2⟩ := renderSlots_ok render
    (order2.flatMap (fun entry => entry.2.Slots)) (List.replicate 5 [])
    (fun slot hs => hok1 slot ((hmem slot).mp hs))
  obtain ⟨hlen2, _, hget2⟩ := renderSlots_days render _ _ _ h2
  have hb1 : ∀ day, day < 5 → buckets1.get? day = some (dayPieces render day order1).flatten := by
    intro day hday
    rw [hget1 day, dayPieces_eq, emptyDays_get? hday]
    simp
  have hb2 : ∀ day, day < 5 → buckets2.get? day = some (dayPieces render day order2).flatten := by
    intro day hday
    rw [hget2 day, dayPieces_eq, emptyDays_get? hday]
    simp
  refine ⟨buckets2, h2, ?_, ?_⟩
  · intro day hday
    exact ⟨hb1 day hday, hb2 day hday, hperm.flatMap_right _⟩
  · intro hdisj
    apply List.ext_get?
    intro day
    by_cases hday : day < 5
    · rw [hb1 day hday, hb2 day hday]
      have heq : dayPieces render day order1 = dayPieces render day order2 := by
        apply flatMap_eq_of_perm _ hperm
        intro x hx y hy hcx hcy
        obtain ⟨p1, hp1⟩ := List.exists_mem_of_ne_nil _ hcx
        obtain ⟨p2, hp2⟩ := List.exists_mem_of_ne_nil _ hcy
        rw [List.mem_filterMap] at hp1 hp2
        obtain ⟨s1, hs1, _⟩ := hp1
        obtain ⟨s2, hs2, _⟩ := hp2
        rw [List.mem_filter] at hs1 hs2
        have d1 : s1.Day = day := by simpa using hs1.2
        have d2 : s2.Day = day := by simpa using hs2.2
        exact hdisj x hx y hy s1 hs1.1 s2 hs2.1 (by rw [d1, d2])
      rw [heq]
    · have e1 : buckets1.get? day = none := by
        rw [List.get?_eq_none]; simp only [hlen1, List.length_replicate]; omega
      have e2 : buckets2.get? day = none := by
        rw [List.get?_eq_none]; simp only [hlen2, List.length_replicate]; omega
      rw [e1, e2]

/-- C18: for a slot with `Start` and `End` of four decimal digits, of duration
d and start offset o, whose activity has the colour (B, F), `Styles` returns
exactly `height: Hvh; top: Tvh; background-color: B; color: F;` where H and T
are the decimal numerals of d/10 and o/10 with one digit after the point and a
leading `-` when negative; from 09:00 to 10:30 in green this is
`height: 9.0vh; top: 6.0vh; background-color: #2ecc71; color: #fefefe;`. -/
theorem styles_value (activities : Activities) (s : Slot) (activity : Activity)
    (hs : s.Start.length = 4) (hsd : s.Start.all isDigit = true)
    (he : s.End.length = 4) (hed : s.End.all isDigit = true)
    (hact : activities.lookup s.Activity = some activity) :
    (∃ d o, Duration s = some d ∧ StartDelay s = some o
        ∧ Styles activities s = some ("height: ".toList ++ tenths d
            ++ "vh; top: ".toList ++ tenths o ++ "vh; background-color: ".toList
            ++ activity.Color.Background ++ "; color: ".toList ++ activity.Color.Foreground
            ++ ";".toList))
      ∧ (tenths 90 = "9.0".toList ∧ tenths 5 = "0.5".toList ∧ tenths 0 = "0.0".toList
          ∧ tenths (-60) = "-6.0".toList ∧ tenths 6039 = "603.9".toList)
      ∧ Styles [("M1".toList, sampleActivity)] (slotAt "0900".toList "1030".toList)
          = some "height: 9.0vh; top: 6.0vh; background-color: #2ecc71; color: #fefefe;".toList := by
  refine ⟨styles_of_digits activities s activity hs hsd he hed hact, by decide, ?_⟩
  obtain ⟨d, o, hd, ho, hst⟩ := styles_of_digits [("M1".toList, sampleActivity)]
    (slotAt "0900".toList "1030".toList) sampleActivity (by decide) (by decide) (by decide)
    (by decide) (by decide)
  have hd2 : Duration (slotAt "0900".toList "1030".toList) = some 90 := by decide
  have ho2 : StartDelay (slotAt "0900".toList "1030".toList) = some 60 := by decide
  rw [hd2] at hd
  rw [ho2] at ho
  simp only [Option.some.injEq] at hd ho
  subst hd
  subst ho
  rw [hst]
  decide

/-- C18 at the slot from 10:07 to 09:00 of an activity in red: the duration is
-67 minutes and the offset 127 minutes. -/
theorem styles_value_witness :
    "1007".toList.length = 4 ∧ "1007".toList.all isDigit = true
      ∧ "0900".toList.length = 4 ∧ "0900".toList.all isDigit = true
      ∧ List.lookup (slotAt "1007".toList "0900".toList).Activity
          [("M1".toList, { sampleActivity with
              Color := ⟨"red".toList, "#e74c3c".toList, "#fefefe".toList⟩ })]
          = some { sampleActivity with
              Color := ⟨"red".toList, "#e74c3c".toList, "#fefefe".toList⟩ }
      ∧ tenths (-67) = "-6.7".toList ∧ tenths 127 = "12.7".toList
      ∧ Duration (slotAt "1007".toList "0900".toList) = some (-67)
      ∧ StartDelay (slotAt "1007".toList "0900".toList) = some 127
      ∧ ∃ d o, Duration (slotAt "1007".toList "0900".toList) = some d
          ∧ StartDelay (slotAt "1007".toList "0900".toList) = some o
          ∧ Styles [("M1".toList, { sampleActivity with
                Color := ⟨"red".toList, "#e74c3c".toList, "#fefefe".toList⟩ })]
              (slotAt "1007".toList "0900".toList)
            = some ("height: ".toList ++ tenths d ++ "vh; top: ".toList ++ tenths o
                ++ "vh; background-color: ".toList ++ "#e74c3c".toList ++ "; color: ".toList
                ++ "#fefefe".toList ++ ";".toList) :=
  ⟨by decide, by decide, by decide, by decide, by decide, by decide, by decide, by decide,
    by decide,
    (styles_value [("M1".toList, { sampleActivity with
          Color := ⟨"red".toList, "#e74c3c".toList, "#fefefe".toList⟩ })]
      (slotAt "1007".toList "0900".toList)
      { sampleActivity with Color := ⟨"red".toList, "#e74c3c".toList, "#fefefe".toList⟩ }
      (by decide) (by decide) (by decide) (by decide) (by decide)).1⟩

/-- C19: every slot stored in the result of a successful parse has `Start` and
`End` of exactly four decimal digits, carries the ID of the activity that holds
it, and its `Activity` reference resolves to that activity; so the slices
`[0:2]` and `[2:4]` of both times are in range, `strconv.Atoi` succeeds on the
four of them, and `StartPrintable`, `EndPrintable`, `StartDelay`, `Duration`
and `Styles` return a value.  In `convertColor` called from the parser the
split has one piece or three, so `hex[1]` and `hex[2]` are in range where they
are read, and no run of the parser panics. -/
theorem parsed_slots_safe (toLower : List Char → List Char) :
    (∀ lines activities, parseInput toLower lines = .processed activities →
        ∀ entry ∈ activities, ∀ slot ∈ entry.2.Slots,
          (slot.Start.length = 4 ∧ slot.Start.all isDigit = true
            ∧ slot.End.length = 4 ∧ slot.End.all isDigit = true)
          ∧ (slot.ID = entry.1 ∧ slot.Activity = entry.1 ∧ entry.2.ID = slot.ID
            ∧ activities.lookup slot.Activity = some entry.2)
          ∧ (∃ sh sm eh em, slice slot.Start 0 2 = some sh ∧ slice slot.Start 2 4 = some sm
            ∧ slice slot.End 0 2 = some eh ∧ slice slot.End 2 4 = some em
            ∧ (Atoi sh).2 = true ∧ (Atoi sm).2 = true
            ∧ (Atoi eh).2 = true ∧ (Atoi em).2 = true)
          ∧ (∃ startText endText delay duration style,
              StartPrintable slot = some startText ∧ EndPrintable slot = some endText
              ∧ StartDelay slot = some delay ∧ Duration slot = some duration
              ∧ Styles activities slot = some style))
      ∧ (∀ content id colorString name,
          matchActivity content = some (id, colorString, name) →
          ((Split colorString '#').length = 1 ∨ (Split colorString '#').length = 3)
            ∧ convertColor toLower colorString ≠ .indexOutOfRange)
      ∧ (∀ lines n, parseInput toLower lines ≠ .panic n) := by
  refine ⟨?_, ?_, ?_⟩
  · intro lines activities h entry hentry slot hslot
    obtain ⟨hs, hsd, he, hed⟩ := parseInput_slots
      (fun slot => slot.Start.length = 4 ∧ slot.Start.all isDigit = true
        ∧ slot.End.length = 4 ∧ slot.End.all isDigit = true)
      (fun content g day hg _ => by
        obtain ⟨_, _, _, _, _, _, _, h7, h8⟩ := matchSlot_eq_some hg
        exact ⟨(isStartTime_digits h7).1, (isStartTime_digits h7).2,
          (isEndTime_digits h8).1, (isEndTime_digits h8).2⟩)
      toLower lines activities h entry hentry slot hslot
    obtain ⟨hnd, hagree⟩ := parseInput_agrees toLower lines activities h
    obtain ⟨hid, hslots⟩ := hagree entry hentry
    obtain ⟨hact, hsid⟩ := hslots slot hslot
    have hlook : activities.lookup slot.Activity = some entry.2 := by
      rw [hact]; exact lookup_of_mem activities hnd entry hentry
    refine ⟨⟨hs, hsd, he, hed⟩, ⟨hsid, hact, by rw [hid, hsid], hlook⟩, ?_, ?_⟩
    · obtain ⟨a, b, c, d, hS⟩ := length_four hs
      obtain ⟨e, f, g, k, hE⟩ := length_four he
      rw [hS] at hsd
      rw [hE] at hed
      simp only [List.all_cons, List.all_nil, Bool.and_true, Bool.and_eq_true] at hsd hed
      obtain ⟨s1, s2, s3, s4⟩ := Atoi_of_time hsd.1 hsd.2.1 hsd.2.2.1 hsd.2.2.2
      obtain ⟨e1, e2, e3, e4⟩ := Atoi_of_time hed.1 hed.2.1 hed.2.2.1 hed.2.2.2
      rw [hS, hE]
      exact ⟨_, _, _, _, s1, s2, e1, e2, by rw [s3], by rw [s4], by rw [e3], by rw [e4]⟩
    · obtain ⟨duration, delay, hdur, hdel, hst⟩ :=
        styles_of_digits activities slot entry.2 hs hsd he hed hlook
      obtain ⟨a, b, c, d, hS⟩ := length_four hs
      obtain ⟨e, f, g, k, hE⟩ := length_four he
      have hsd2 := hsd
      have hed2 := hed
      rw [hS] at hsd2
      rw [hE] at hed2
      simp only [List.all_cons, List.all_nil, Bool.and_true, Bool.and_eq_true] at hsd2 hed2
      obtain ⟨s1, s2, _, _⟩ := Atoi_of_time hsd2.1 hsd2.2.1 hsd2.2.2.1 hsd2.2.2.2
      obtain ⟨e1, e2, _, _⟩ := Atoi_of_time hed2.1 hed2.2.1 hed2.2.2.1 hed2.2.2.2
      refine ⟨[a, b] ++ ':' :: [c, d], [e, f] ++ ':' :: [g, k], delay, duration, _, ?_, ?_,
        hdel, hdur, hst⟩
      · simp only [StartPrintable, hS, s1, s2]
      · simp only [EndPrintable, hE, e1, e2]
  · intro content id colorString name hact
    have htok := ((matchActivity_iff _ _ _ _).mp hact).2.2.2.1
    refine ⟨?_, convertColor_colorToken toLower htok⟩
    rcases Split_colorToken htok with h1 | ⟨b, f, _, h3⟩
    · left; rw [h1]; rfl
    · right; rw [h3]; rfl
  · intro lines n
    exact scan_ne_panic toLower lines [] 0 n

/-- C19 at `sampleDocument` and at its activity line `M2@#1a2b3c#ffffff@Art`. -/
theorem parsed_slots_safe_witness :
    parseInput asciiToLower sampleDocument = .processed sampleMapping
      ∧ (∀ entry ∈ sampleMapping, ∀ slot ∈ entry.2.Slots,
          (slot.Start.length = 4 ∧ slot.Start.all isDigit = true
            ∧ slot.End.length = 4 ∧ slot.End.all isDigit = true)
          ∧ (slot.ID = entry.1 ∧ slot.Activity = entry.1 ∧ entry.2.ID = slot.ID
            ∧ sampleMapping.lookup slot.Activity = some entry.2)
          ∧ (∃ sh sm eh em, slice slot.Start 0 2 = some sh ∧ slice slot.Start 2 4 = some sm
            ∧ slice slot.End 0 2 = some eh ∧ slice slot.End 2 4 = some em
            ∧ (Atoi sh).2 = true ∧ (Atoi sm).2 = true
            ∧ (Atoi eh).2 = true ∧ (Atoi em).2 = true)
          ∧ (∃ startText endText delay duration style,
              StartPrintable slot = some startText ∧ EndPrintable slot = some endText
              ∧ StartDelay slot = some delay ∧ Duration slot = some duration
              ∧ Styles sampleMapping slot = some style))
      ∧ matchActivity "M2@#1a2b3c#ffffff@Art".toList
          = some ("M2".toList, "#1a2b3c#ffffff".toList, "Art".toList)
      ∧ (((Split "#1a2b3c#ffffff".toList '#').length = 1
            ∨ (Split "#1a2b3c#ffffff".toList '#').length = 3)
          ∧ convertColor asciiToLower "#1a2b3c#ffffff".toList ≠ .indexOutOfRange) :=
  ⟨by decide,
    (parsed_slots_safe asciiToLower).1 sampleDocument sampleMapping (by decide),
    by decide,
    (parsed_slots_safe asciiToLower).2.1 "M2@#1a2b3c#ffffff@Art".toList "M2".toList
      "#1a2b3c#ffffff".toList "Art".toList (by decide)⟩

/-- C20, amended, at `sampleMapping` enumerated in its order and in the reverse
order: no two activities have a slot on the same day, and the buckets are the
same. -/
theorem day_buckets_order_witness :
    sampleMapping.Perm sampleMapping.reverse
      ∧ dayBuckets sampleRender sampleMapping
          = .days ["[R 1]".toList, "[Lab]".toList, "[R 2]".toList, [], []]
      ∧ (∀ entry1 ∈ sampleMapping, ∀ entry2 ∈ sampleMapping, ∀ slot1 ∈ entry1.2.Slots,
            ∀ slot2 ∈ entry2.2.Slots, slot1.Day = slot2.Day → entry1 = entry2)
      ∧ ∃ buckets2, dayBuckets sampleRender sampleMapping.reverse = .days buckets2
          ∧ (∀ day, day < 5 →
              ["[R 1]".toList, "[Lab]".toList, "[R 2]".toList, [], []].get? day
                  = some (dayPieces sampleRender day sampleMapping).flatten
                ∧ buckets2.get? day
                  = some (dayPieces sampleRender day sampleMapping.reverse).flatten
                ∧ (dayPieces sampleRender day sampleMapping).Perm
                    (dayPieces sampleRender day sampleMapping.reverse))
          ∧ ((∀ entry1 ∈ sampleMapping, ∀ entry2 ∈ sampleMapping,
                ∀ slot1 ∈ entry1.2.Slots, ∀ slot2 ∈ entry2.2.Slots,
                slot1.Day = slot2.Day → entry1 = entry2) →
              buckets2 = ["[R 1]".toList, "[Lab]".toList, "[R 2]".toList, [], []]) :=
  ⟨(List.reverse_perm _).symm, by decide, by decide,
    day_buckets_order sampleRender sampleMapping sampleMapping.reverse
      (List.reverse_perm _).symm ["[R 1]".toList, "[Lab]".toList, "[R 2]".toList, [], []]
      (by decide)⟩

end Ours
